import Mathlib

/-!
Shallow embedding of the AI code-review backend (Express/Prisma web app).

The embedding covers:
* the JS value model needed by the services (`Json`, truthiness, `||` defaulting,
  strict equality `===` on primitives);
* `llmService.parseAnalysisResponse` (src/backend/services/llmService.js),
  including executable models of the two regexes it uses to locate a JSON
  object in the model's free-text reply;
* `aiService.setProvider` / `getProvider` / `getService`
  (src/backend/services/aiService.js);
* the `PUT /api/standards/:id` and `DELETE /api/standards/:id` route handlers
  (src/backend/routes/standards.js);
* the review orchestrator `analyzeStagedChanges` / `analyzeCommit`
  (codeAnalysisService, src/unnamed/part_004), with the database modelled as
  explicit state and the external collaborators (git, parse-diff, the AI
  provider, wall-clock time, transient write failures) as oracle inputs.

`JSON.parse` is an opaque JS builtin; it is passed in as a
`String → Option Json` parameter (`none` models a parse exception).
-/

namespace HaufeReview

/-! ## JS value model -/

/-- A JSON/JS value as produced by `JSON.parse`.  Numbers are modelled as
rationals (the source only ever manipulates counts and `0.5`-granular effort
hours; NaN/Infinity never arise from `JSON.parse`). -/
inductive Json where
  | null : Json
  | bool : Bool → Json
  | num : Rat → Json
  | str : String → Json
  | arr : List Json → Json
  | obj : List (String × Json) → Json

/-- JS object property lookup: with duplicate keys, `JSON.parse` keeps the
last occurrence.  Property access on a non-object, non-null value yields
`undefined` (modelled as `none`); this also covers the `?.` accesses in the
source, which yield `undefined` on null too.  A PLAIN access on a null
receiver throws a TypeError in JS instead: the one reachable such access
inside `parseAnalysisResponse` (the candidate filter dereferencing a null
element of `issues`) is modelled explicitly there, routing to the catch; a
null `parsed` would throw at `parsed.issues`, and the catch's empty result
coincides with the value computed here, so that case needs no extra route. -/
def Json.field : Json → String → Option Json
  | .obj fs, k => ((fs.reverse).find? (fun p => p.1 == k)).map (fun p => p.2)
  | _, _ => none

/-- JS truthiness of a defined value. -/
def Json.truthy : Json → Bool
  | .null => false
  | .bool b => b
  | .num q => q != 0
  | .str s => s ≠ ""
  | .arr _ => true
  | .obj _ => true

/-- JS `a || d` where `a` is a possibly-undefined value (`none` = undefined). -/
def jsOr (v : Option Json) (d : Json) : Json :=
  match v with
  | some x => if x.truthy then x else d
  | none => d

/-- JS truthiness of a possibly-undefined value. -/
def jsTruthyOpt (v : Option Json) : Bool :=
  match v with
  | some x => x.truthy
  | none => false

/-- JS strict equality `===` restricted to the comparisons the source makes:
primitives compare by value; arrays/objects compare by reference, and the two
sides always come from different allocations in the source, so they are never
reference-equal. -/
def jsStrictEq : Json → Json → Bool
  | .null, .null => true
  | .bool a, .bool b => a == b
  | .num a, .num b => a == b
  | .str a, .str b => a == b
  | _, _ => false

/-- Is the value a JS array (`Array.isArray`)? -/
def Json.isArr : Json → Bool
  | .arr _ => true
  | _ => false

/-- Is the value the JSON `null`?  Property access on such a value throws a
TypeError in JS. -/
def Json.isNull : Json → Bool
  | .null => true
  | _ => false

/-! ## Regex models for `parseAnalysisResponse`

The parser first tries `/```(?:json)?\s*(\{[\s\S]*?\})\s*```/` (fenced code
block, lazy brace group), then `/\{[\s\S]*\}/` (greedy brace span).  Both are
modelled as executable functions on `List Char` with JS leftmost-match,
lazy/greedy semantics. -/

/-- The backtick character. -/
def btick : Char := Char.ofNat 96

/-- JS `\s` on the whitespace characters that occur in model replies. -/
def jsWs (c : Char) : Bool :=
  c == ' ' || c == '\t' || c == '\n' || c == '\r' || c == '\x0b' || c == '\x0c'

/-- Drop a leading maximal run of whitespace (`\s*` followed by a
non-whitespace literal backtracks to exactly this). -/
def skipWs (l : List Char) : List Char := l.dropWhile jsWs

/-- JS `String.prototype.trim`: strip whitespace from both ends. -/
def jsTrim (s : String) : String :=
  String.mk (((s.data.dropWhile jsWs).reverse.dropWhile jsWs).reverse)

/-- Consume a literal ` ``` `. -/
def stripTicks : List Char → Option (List Char)
  | a :: b :: c :: rest =>
    if a == btick && b == btick && c == btick then some rest else none
  | _ => none

/-- Lazy search for the closing `}` of the group `\{[\s\S]*?\}`: try each
`}` in turn; a candidate succeeds when `\s*` then ` ``` ` follows; on failure
the `}` is absorbed into the group body and the search continues.  Returns
the group body (between the braces). -/
def lazyClose : List Char → List Char → Option (List Char)
  | _, [] => none
  | acc, c :: rest =>
    if c == '}' then
      match stripTicks (skipWs rest) with
      | some _ => some acc
      | none => lazyClose (acc ++ [c]) rest
    else lazyClose (acc ++ [c]) rest

/-- After the opening fence (and optional `json`), match `\s*` then the brace
group; returns the full group text `{...}` (capture group 1). -/
def fencedGroupFrom (l : List Char) : Option (List Char) :=
  match skipWs l with
  | c :: rest =>
    if c == '{' then (lazyClose [] rest).map (fun inner => '{' :: (inner ++ ['}'])) else none
  | [] => none

/-- Consume the literal `json` (the `(?:json)?` option). -/
def jsonPrefix : List Char → Option (List Char)
  | a :: b :: c :: d :: rest =>
    if a == 'j' && b == 's' && c == 'o' && d == 'n' then some rest else none
  | _ => none

/-- Try the fenced-block regex at one position: ` ``` `, optional `json`
(preferred by the engine, with backtracking to the empty option), `\s*`,
then the lazy brace group. -/
def matchFencedAt (l : List Char) : Option (List Char) :=
  match stripTicks l with
  | none => none
  | some l1 =>
    match jsonPrefix l1 with
    | some l2 =>
      match fencedGroupFrom l2 with
      | some g => some g
      | none => fencedGroupFrom l1
    | none => fencedGroupFrom l1

/-- Leftmost match of the fenced-block regex over the whole text. -/
def fencedScan : List Char → Option (List Char)
  | [] => none
  | l@(_ :: rest) =>
    match matchFencedAt l with
    | some g => some g
    | none => fencedScan rest

/-- Leftmost-greedy match of `/\{[\s\S]*\}/`: from the first `{` to the last
`}` after it, if any. -/
def braceSpan (l : List Char) : Option (List Char) :=
  match l.dropWhile (fun c => c ≠ '{') with
  | [] => none
  | _ :: rest =>
    let upToLast := (rest.reverse.dropWhile (fun c => c ≠ '}')).reverse
    if upToLast.isEmpty then none else some ('{' :: upToLast)

/-- The JSON-location step of `parseAnalysisResponse`: fenced block first
(capture group 1), then raw brace span (whole match — `jsonMatch[1]` is
undefined for the second regex, so `jsonMatch[1] || jsonMatch[0]` yields the
whole match). -/
def locateJson (s : String) : Option String :=
  match fencedScan s.data with
  | some g => some (String.mk g)
  | none => (braceSpan s.data).map String.mk

/-! ## Response Parser (`llmService.parseAnalysisResponse`) -/

/-- A normalized issue as produced by the parser's `.map` step.  Fields keep
their JS values (`Json`); `autoFixable` is coerced with `Boolean(...)`. -/
structure NormIssue where
  line : Json
  lineEnd : Json
  severity : Json
  category : Json
  title : Json
  description : Json
  suggestion : Json
  autoFixable : Bool
  standard : Json
  documentationNeeded : Json

/-- The candidate-issue filter: the four text fields must be present and
truthy, `line` must merely be present (`issue.line !== undefined`). -/
def issueKeep (j : Json) : Bool :=
  jsTruthyOpt (j.field "title") && jsTruthyOpt (j.field "description") &&
    jsTruthyOpt (j.field "severity") && jsTruthyOpt (j.field "category") &&
    (j.field "line").isSome

/-- The `.map` normalization step.  `title`/`description` are guaranteed
present and truthy by the preceding filter; absent is modelled as `null`. -/
def normalizeIssue (j : Json) : NormIssue :=
  { line := jsOr (j.field "line") (.num 1)
    lineEnd := jsOr (j.field "lineEnd") (jsOr (j.field "line") (.num 1))
    severity := jsOr (j.field "severity") (.str "INFO")
    category := jsOr (j.field "category") (.str "style")
    title := (j.field "title").getD .null
    description := (j.field "description").getD .null
    suggestion := jsOr (j.field "suggestion") (.str "")
    autoFixable := jsTruthyOpt (j.field "autoFixable")
    standard := jsOr (j.field "standard") .null
    documentationNeeded := jsOr (j.field "documentationNeeded") .null }

/-- The four recommendation lists. -/
structure RecLists where
  documentation : List Json
  testing : List Json
  architecture : List Json
  cicd : List Json

/-- Result shape of `parseAnalysisResponse`. -/
structure AnalysisOutput where
  issues : List NormIssue
  summary : Json
  recommendations : RecLists

/-- `\x7b critical: 0, major: 0, minor: 0, info: 0 \x7d`. -/
def zeroSummary : Json :=
  .obj [("critical", .num 0), ("major", .num 0), ("minor", .num 0), ("info", .num 0)]

/-- The empty, well-formed result returned on location/parse failure. -/
def emptyAnalysis : AnalysisOutput :=
  { issues := [], summary := zeroSummary
    recommendations := { documentation := [], testing := [], architecture := [], cicd := [] } }

/-- Number of normalized issues whose `severity` strictly equals the given
string. -/
def countSev (issues : List NormIssue) (sev : String) : Nat :=
  (issues.filter (fun i => jsStrictEq i.severity (.str sev))).length

/-- The summary computed from the valid issues (fallback when the parsed
object has no truthy `summary` field). -/
def computedSummary (vi : List NormIssue) : Json :=
  .obj [("critical", .num (countSev vi "CRITICAL")),
        ("major", .num (countSev vi "MAJOR")),
        ("minor", .num (countSev vi "MINOR")),
        ("info", .num (countSev vi "INFO"))]

/-- `parsed.recommendations?.<k>` kept only when it is an array. -/
def recsOf (parsed : Json) : RecLists :=
  let g : String → List Json := fun k =>
    match (parsed.field "recommendations").bind (fun r => r.field k) with
    | some (.arr l) => l
    | _ => []
  { documentation := g "documentation", testing := g "testing"
    architecture := g "architecture", cicd := g "cicd" }

/-- `llmService.parseAnalysisResponse` (identical code in geminiService).
`jsonParse` stands for the `JSON.parse` builtin; `none` models the exception
it throws on invalid JSON, which the surrounding `try/catch` turns into the
empty result.  When the `issues` array holds a JSON `null`, the filter
callback's `issue.title` access throws a TypeError, which the same catch
turns into the empty result as well.  The function is total: the JS version
never propagates an error. -/
def parseAnalysisResponse (response : String) (jsonParse : String → Option Json) :
    AnalysisOutput :=
  match locateJson response with
  | none => emptyAnalysis
  | some jsonStr =>
    match jsonParse jsonStr with
    | none => emptyAnalysis
    | some parsed =>
      let issues : List Json :=
        match parsed.field "issues" with
        | some (.arr l) => l
        | _ => []
      if issues.any Json.isNull then emptyAnalysis
      else
        let validIssues := (issues.filter issueKeep).map normalizeIssue
        { issues := validIssues
          summary := jsOr (parsed.field "summary") (computedSummary validIssues)
          recommendations := recsOf parsed }

/-! ## AI provider selection (`aiService.js`) -/

/-- The two interchangeable backends behind `getService`. -/
inductive Backend where
  | ollama : Backend
  | gemini : Backend
deriving DecidableEq, Repr

/-- The mutable `this.provider` field of the `AIService` singleton. -/
structure AIProviderState where
  provider : String
deriving DecidableEq, Repr

/-- `aiService.getService`. -/
def getService (st : AIProviderState) : Backend :=
  if st.provider == "gemini" then .gemini else .ollama

/-- `aiService.getProvider`. -/
def getProvider (st : AIProviderState) : String := st.provider

/-- `aiService.setProvider`: throws on anything but the two exact strings;
the throw happens before the assignment, so the returned state is the
original one on error. -/
def setProvider (p : String) (st : AIProviderState) :
    Except String Unit × AIProviderState :=
  if p ≠ "ollama" && p ≠ "gemini" then
    (.error "Invalid provider. Must be \"ollama\" or \"gemini\"", st)
  else
    (.ok (), { st with provider := p })

/-! ## Standards routes (`routes/standards.js`) -/

/-- A `CodingStandard` row (columns as in the Prisma migration). -/
structure Standard where
  id : String
  name : String
  description : Option String
  language : String
  rules : Json
  isActive : Bool
  isBuiltIn : Bool

/-- An HTTP response, reduced to what the claims observe. -/
structure HttpResp where
  status : Nat
  errMsg : Option String
deriving DecidableEq, Repr

/-- The update body of `PUT /api/standards/:id`; a field is `none` when the
key is absent from `req.body` (`!== undefined` guards in the source).
Ill-typed field values would be rejected by Prisma with a 500 and no write;
only well-typed bodies are modelled. -/
structure StandardPatch where
  name : Option String
  description : Option (Option String)
  language : Option String
  rules : Option Json
  isActive : Option Bool

/-- `prisma.codingStandard.findUnique({ where: \x7b id \x7d })`. -/
def findStandard (db : List Standard) (id : String) : Option Standard :=
  db.find? (fun s => s.id == id)

/-- The `data` object built by the PUT handler, applied to the row. -/
def applyPatch (s : Standard) (b : StandardPatch) : Standard :=
  { s with name := b.name.getD s.name
           description := b.description.getD s.description
           language := b.language.getD s.language
           rules := b.rules.getD s.rules
           isActive := b.isActive.getD s.isActive }

/-- `PUT /api/standards/:id`. -/
def putStandard (db : List Standard) (id : String) (body : StandardPatch) :
    HttpResp × List Standard :=
  match findStandard db id with
  | none => ({ status := 404, errMsg := some "Standard not found" }, db)
  | some existing =>
    if existing.isBuiltIn then
      ({ status := 403, errMsg := some "Cannot modify built-in standards" }, db)
    else
      ({ status := 200, errMsg := none },
       db.map (fun s => if s.id == id then applyPatch s body else s))

/-- `DELETE /api/standards/:id`. -/
def deleteStandard (db : List Standard) (id : String) :
    HttpResp × List Standard :=
  match findStandard db id with
  | none => ({ status := 404, errMsg := some "Standard not found" }, db)
  | some existing =>
    if existing.isBuiltIn then
      ({ status := 403, errMsg := some "Cannot delete built-in standards" }, db)
    else
      ({ status := 200, errMsg := none }, db.filter (fun s => s.id ≠ id))

/-! ## Data model for the review pipeline (Prisma rows, explicit state) -/

/-- `ReviewStatus` enum. -/
inductive ReviewStatus where
  | PENDING : ReviewStatus
  | IN_PROGRESS : ReviewStatus
  | COMPLETED : ReviewStatus
  | FAILED : ReviewStatus
deriving DecidableEq, Repr

/-- A `CodeReview` row.  Integer ids stand for the cuid strings Prisma
generates (fresh per creation); `recommendations` is the JSON column. -/
structure Review where
  id : Nat
  userId : Nat
  repositoryPath : String
  branch : String
  commitHash : Option String
  status : ReviewStatus
  filesAnalyzed : Nat
  issuesFound : Nat
  criticalIssues : Nat
  majorIssues : Nat
  minorIssues : Nat
  estimatedEffort : Json
  tokensUsed : Nat
  analysisTime : Rat
  recommendations : RecLists

/-- A `CodeIssue` row.  Value-typed columns keep the JS value written by the
orchestrator (`Json`); `effort` is `null` until the effort loop sets it. -/
structure Issue where
  id : Nat
  reviewId : Nat
  filePath : String
  lineNumber : Json
  lineEnd : Json
  severity : Json
  category : Json
  title : Json
  description : Json
  codeSnippet : String
  suggestion : Json
  autoFixable : Bool
  standard : Json
  documentationNeeded : Json
  effort : Json

/-- The relational state the pipeline touches. -/
structure DB where
  reviews : List Review
  issues : List Issue
  standards : List Standard
  nextReviewId : Nat
  nextIssueId : Nat

/-- Freshness of the id counters: every stored id (and issue foreign key)
is below the corresponding counter.  Holds for any state produced by the
model's own operations from an empty database. -/
def DB.wf (db : DB) : Bool :=
  db.reviews.all (fun r => r.id < db.nextReviewId) &&
    db.issues.all (fun i => i.reviewId < db.nextReviewId && i.id < db.nextIssueId)

/-- Empty recommendation accumulator. -/
def emptyRecs : RecLists :=
  { documentation := [], testing := [], architecture := [], cicd := [] }

/-- Concatenation of recommendation lists (`push(...recs.x)`). -/
def concatRecs (a b : RecLists) : RecLists :=
  { documentation := a.documentation ++ b.documentation
    testing := a.testing ++ b.testing
    architecture := a.architecture ++ b.architecture
    cicd := a.cicd ++ b.cicd }

/-- `prisma.codeReview.create` with `status: "IN_PROGRESS"`. -/
def createReview (db : DB) (userId : Nat) (repositoryPath branch : String)
    (commitHash : Option String) : Review × DB :=
  let r : Review :=
    { id := db.nextReviewId, userId := userId, repositoryPath := repositoryPath
      branch := branch, commitHash := commitHash, status := .IN_PROGRESS
      filesAnalyzed := 0, issuesFound := 0, criticalIssues := 0, majorIssues := 0
      minorIssues := 0, estimatedEffort := .null, tokensUsed := 0
      analysisTime := 0, recommendations := emptyRecs }
  (r, { db with reviews := db.reviews ++ [r], nextReviewId := db.nextReviewId + 1 })

/-- `prisma.codeReview.update({ where: \x7b id \x7d, data: \x7b status: "FAILED" \x7d })`. -/
def setReviewFailed (db : DB) (rid : Nat) : DB :=
  { db with reviews :=
      db.reviews.map (fun r => if r.id == rid then { r with status := .FAILED } else r) }

/-- `prisma.codeReview.update` applying `f` to the row with the given id and
returning the updated row (Prisma throws if the row is missing — `none`
here, unreachable in the modelled runs). -/
def updateReviewRet (db : DB) (rid : Nat) (f : Review → Review) :
    Option Review × DB :=
  match db.reviews.find? (fun r => r.id == rid) with
  | none => (none, db)
  | some r =>
    (some (f r),
     { db with reviews := db.reviews.map (fun x => if x.id == rid then f x else x) })

/-- `prisma.codeIssue.update({ where: \x7b id \x7d, data: \x7b effort \x7d })`. -/
def setIssueEffort (db : DB) (iid : Nat) (v : Json) : DB :=
  { db with issues :=
      db.issues.map (fun i => if i.id == iid then { i with effort := v } else i) }

/-! ## Diff model (`parse-diff` output and `extractChangedCode`) -/

/-- A change line in a parsed diff chunk. -/
inductive ChangeKind where
  | add : ChangeKind
  | del : ChangeKind
  | normal : ChangeKind
deriving DecidableEq, Repr

/-- One line of a chunk, with its raw content (`+`/`-`/space prefix still
attached, as parse-diff delivers it). -/
structure DiffChange where
  kind : ChangeKind
  content : String

/-- One hunk of a parsed diff. -/
structure DiffChunk where
  newStart : Nat
  changes : List DiffChange

/-- One file entry of a parsed diff. -/
structure DiffFile where
  «to» : String
  deleted : Bool
  chunks : List DiffChunk

/-- `content.substring(1)`: drop the diff-prefix character. -/
def strDrop1 (s : String) : String := String.mk (s.data.drop 1)

/-- An entry of `changedLines` in `extractChangedCode`. -/
structure ChangedLine where
  line : Nat
  content : String
  kind : String

/-- The inner loop of `extractChangedCode` over one chunk's changes:
added and context lines are kept (numbered), deletions are skipped without
advancing the line counter. -/
def chunkLines : Nat → List DiffChange → List ChangedLine
  | _, [] => []
  | ln, c :: rest =>
    match c.kind with
    | .add => { line := ln, content := strDrop1 c.content, kind := "add" } :: chunkLines (ln + 1) rest
    | .normal => { line := ln, content := strDrop1 c.content, kind := "context" } :: chunkLines (ln + 1) rest
    | .del => chunkLines ln rest

/-- `codeAnalysisService.extractChangedCode`: per chunk the counter restarts
at `chunk.newStart || 1`; the returned text joins the kept contents. -/
def extractChangedCode (file : DiffFile) : String :=
  let lines := file.chunks.foldl
    (fun acc chunk =>
      acc ++ chunkLines (if chunk.newStart == 0 then 1 else chunk.newStart) chunk.changes)
    []
  String.intercalate "\n" (lines.map (fun l => l.content))

/-- `path.extname`: extension of the basename, `""` when there is no dot,
the dot is the leading character, or the basename is `.` or `..`. -/
def extname (p : String) : String :=
  let b := (p.data.reverse.takeWhile (fun c => c ≠ '/')).reverse
  if b = ['.'] ∨ b = ['.', '.'] then ""
  else
    let pre := b.reverse.takeWhile (fun c => c ≠ '.')
    if pre.length = b.length then ""
    else if b.length - 1 - pre.length = 0 then ""
    else String.mk ('.' :: pre.reverse)

/-- The fixed `supportedExtensions` table of `CodeAnalysisService`. -/
def supportedExtensions (ext : String) : Option String :=
  if ext = ".js" then some "javascript"
  else if ext = ".jsx" then some "javascript"
  else if ext = ".ts" then some "typescript"
  else if ext = ".tsx" then some "typescript"
  else if ext = ".py" then some "python"
  else if ext = ".java" then some "java"
  else if ext = ".cpp" then some "cpp"
  else if ext = ".c" then some "c"
  else if ext = ".cs" then some "csharp"
  else if ext = ".go" then some "go"
  else if ext = ".rb" then some "ruby"
  else if ext = ".php" then some "php"
  else if ext = ".rs" then some "rust"
  else none

/-! ## Review orchestrator (`codeAnalysisService`)

External collaborators are oracle inputs: git answers (`status`, branch,
diff texts, commit existence), the `parse-diff` library, the AI provider
(indexed by call number, failing with the error the adapter would throw),
the effort estimator, wall-clock time, and transient `codeIssue.create`
failures (indexed by attempt number — the per-issue `try/catch` skips
those). -/

/-- Arguments of one `aiService.analyzeCode` invocation (the prompt is built
from exactly these inside the adapter). -/
structure AICall where
  code : String
  filePath : String
  language : String
  standards : List Standard

/-- What `aiService.analyzeCode` resolves to: parsed analysis plus token
count. -/
structure AICallResult where
  analysis : AnalysisOutput
  tokensUsed : Nat

/-- The oracle for everything outside the process. -/
structure AnalyzeEnv where
  statusStaged : List String
  statusModified : List String
  branch : String
  diffCached : String
  diffWorking : String
  diffCommit : String
  commitExists : Bool
  parseDiffFn : String → List DiffFile
  analyzeCode : Nat → Except String AICallResult
  estimateEffort : Except String Json
  issueCreateFails : Nat → Bool
  timeStart : Rat
  timeEnd : Rat

/-- Outcome of a run: the re-raised error or the returned review, the final
database, and the trace of AI invocations. -/
structure RunOut where
  result : Except String Review
  db : DB
  calls : List AICall

/-- Accumulator of the per-file loop. -/
structure LoopSt where
  db : DB
  totalTokens : Nat
  allIssues : List Issue
  recs : RecLists
  filesAnalyzed : Nat
  aiIdx : Nat
  issueIdx : Nat
  calls : List AICall

/-- The row written by `prisma.codeIssue.create` for one candidate issue. -/
def mkIssue (db : DB) (rid : Nat) (filePath code : String) (issue : NormIssue) :
    Issue :=
  { id := db.nextIssueId, reviewId := rid, filePath := filePath
    lineNumber := jsOr (some issue.line) (.num 1)
    lineEnd := jsOr (some issue.lineEnd) (jsOr (some issue.line) (.num 1))
    severity := jsOr (some issue.severity) (.str "INFO")
    category := jsOr (some issue.category) (.str "style")
    title := issue.title, description := issue.description
    codeSnippet := String.mk (code.data.take 5000)
    suggestion := jsOr (some issue.suggestion) .null
    autoFixable := issue.autoFixable
    standard := jsOr (some issue.standard) .null
    documentationNeeded := jsOr (some issue.documentationNeeded) .null
    effort := .null }

/-- The `for (const issue of analysis.analysis.issues)` loop: each create is
individually try/caught; a failed create is logged and skipped.  Returns the
new database, the grown `allIssues`, and the attempt counter. -/
def saveIssuesLoop (env : AnalyzeEnv) (rid : Nat) (filePath code : String) :
    List NormIssue → DB → List Issue → Nat → DB × List Issue × Nat
  | [], db, acc, idx => (db, acc, idx)
  | i :: rest, db, acc, idx =>
    if env.issueCreateFails idx then
      saveIssuesLoop env rid filePath code rest db acc (idx + 1)
    else
      let issue := mkIssue db rid filePath code i
      saveIssuesLoop env rid filePath code rest
        { db with issues := db.issues ++ [issue], nextIssueId := db.nextIssueId + 1 }
        (acc ++ [issue]) (idx + 1)

/-- One iteration of `for (const file of parsedDiff)`: skip deleted files,
unsupported extensions and minimal changes; otherwise count the file, call
the AI (the per-file `try/catch` swallows its failure), accumulate tokens and
recommendations, and persist the issues. -/
def processFile (env : AnalyzeEnv) (rid : Nat) (standards : List Standard)
    (st : LoopSt) (f : DiffFile) : LoopSt :=
  if f.deleted then st
  else
    match supportedExtensions (extname f.«to») with
    | none => st
    | some language =>
      let changedCode := extractChangedCode f
      if changedCode = "" || (jsTrim changedCode).length < 10 then st
      else
        let idx := st.aiIdx
        let call : AICall :=
          { code := changedCode, filePath := f.«to», language := language
            standards := standards.filter
              (fun s => s.language = language || s.language = "all") }
        let st1 : LoopSt :=
          { st with filesAnalyzed := st.filesAnalyzed + 1
                    aiIdx := idx + 1, calls := st.calls ++ [call] }
        match env.analyzeCode idx with
        | .error _ => st1
        | .ok res =>
          let (db2, acc2, idx2) :=
            saveIssuesLoop env rid f.«to» changedCode res.analysis.issues
              st1.db st1.allIssues st1.issueIdx
          { st1 with
              totalTokens := st1.totalTokens + res.tokensUsed
              recs := concatRecs st1.recs res.analysis.recommendations
              db := db2, allIssues := acc2, issueIdx := idx2 }

/-- A file entry survives the three filters (gets counted and analyzed). -/
def fileSurvives (f : DiffFile) : Bool :=
  !f.deleted && (supportedExtensions (extname f.«to»)).isSome &&
    !(extractChangedCode f = "" || (jsTrim (extractChangedCode f)).length < 10)

/-- The effort-breakdown loop: for each breakdown item, find the first saved
issue with strictly-equal title and set its `effort` when the item's effort
is truthy. -/
def effortLoop (allIssues : List Issue) : List Json → DB → DB
  | [], db => db
  | item :: rest, db =>
    let db1 :=
      match allIssues.find? (fun i =>
          match item.field "issue" with
          | some v => jsStrictEq i.title v
          | none => false) with
      | some issue =>
        if jsTruthyOpt (item.field "effort") then
          setIssueEffort db issue.id ((item.field "effort").getD .null)
        else db
      | none => db
    effortLoop allIssues rest db1

/-- The loop accumulator at entry. -/
def initLoopSt (db1 : DB) : LoopSt :=
  { db := db1, totalTokens := 0, allIssues := [], recs := emptyRecs
    filesAnalyzed := 0, aiIdx := 0, issueIdx := 0, calls := [] }

/-- The per-issue `effort` updates, run only when the estimate carries a
`breakdown` array. -/
def breakdownDbOf (A : List Issue) (db : DB) : Option Json → DB
  | some (.arr items) => effortLoop A items db
  | _ => db

/-- The effort-estimation step over the accumulated saved issues: the
estimated total (`effortEstimate.totalEffort || 0`, with the
0.5-hour-per-issue fallback when the estimator call throws) and the
database after the per-issue `effort` updates. -/
def effortStepOf (env : AnalyzeEnv) (A : List Issue) (db : DB) : Json × DB :=
  if A.length > 0 then
    match env.estimateEffort with
    | .ok est =>
      (jsOr (est.field "totalEffort") (.num 0),
       breakdownDbOf A db (est.field "breakdown"))
    | .error _ => (.num ((A.length : Rat) * (1 / 2)), db)
  else (.num 0, db)

/-- The `data` of the final COMPLETED update, applied to the review row. -/
def completionFn (env : AnalyzeEnv) (st : LoopSt) (effort : Json)
    (r : Review) : Review :=
  { r with status := .COMPLETED, filesAnalyzed := st.filesAnalyzed
           issuesFound := st.allIssues.length
           criticalIssues := (st.allIssues.filter (fun i =>
             jsStrictEq i.severity (.str "CRITICAL"))).length
           majorIssues := (st.allIssues.filter (fun i =>
             jsStrictEq i.severity (.str "MAJOR"))).length
           minorIssues := (st.allIssues.filter (fun i =>
             jsStrictEq i.severity (.str "MINOR"))).length
           estimatedEffort := effort
           tokensUsed := st.totalTokens
           analysisTime := (env.timeEnd - env.timeStart) / 1000
           recommendations := st.recs }

/-- The tail of the orchestrator after the per-file loop: the zero-files
failure, effort estimation, and the COMPLETED update carrying the severity
counts. -/
def runCoreAfterLoop (env : AnalyzeEnv) (review : Review)
    (noFilesMsg : String) (st : LoopSt) : RunOut :=
  if st.filesAnalyzed = 0 then
    { result := .error noFilesMsg, db := setReviewFailed st.db review.id
      calls := st.calls }
  else
    match updateReviewRet (effortStepOf env st.allIssues st.db).2 review.id
        (completionFn env st (effortStepOf env st.allIssues st.db).1) with
    | (some r, db3) => { result := .ok r, db := db3, calls := st.calls }
    | (none, db3) =>
      { result := .error "Record to update not found.", db := db3, calls := st.calls }

/-- The shared tail of both orchestrator functions (the source duplicates
this block verbatim in `analyzeStagedChanges` and `analyzeCommit`, modulo
log texts and the zero-files error message): the per-file loop over the
parsed diff, then `runCoreAfterLoop`. -/
def runCore (env : AnalyzeEnv) (db1 : DB) (review : Review)
    (parsedDiff : List DiffFile) (noFilesMsg : String) : RunOut :=
  let standards := db1.standards.filter (fun s => s.isActive)
  runCoreAfterLoop env review noFilesMsg
    (parsedDiff.foldl (processFile env review.id standards) (initLoopSt db1))

/-- The `try` body of `analyzeStagedChanges` (before its `catch`). -/
def stagedBody (env : AnalyzeEnv) (db : DB) (repositoryPath : String)
    (userId : Nat) : RunOut :=
  if env.statusStaged.length = 0 ∧ env.statusModified.length = 0 then
    { result := .error "No staged or modified changes found. Please stage your changes first using 'git add'."
      db := db, calls := [] }
  else
    let (review, db1) := createReview db userId repositoryPath env.branch none
    let diff := if env.statusStaged.length > 0 then env.diffCached else env.diffWorking
    if diff = "" || jsTrim diff = "" then
      { result := .error "No changes detected in the diff. Please make sure you have uncommitted changes."
        db := db1, calls := [] }
    else
      let parsedDiff := env.parseDiffFn diff
      if parsedDiff.length = 0 then
        { result := .error "Unable to parse diff. Please check if there are valid code changes."
          db := db1, calls := [] }
      else
        runCore env db1 review parsedDiff
          "No supported files found to analyze. Make sure you have code files with supported extensions (.js, .jsx, .ts, .tsx, .py, .java, etc.)"

/-- The best-effort failure marking in the `catch` of `analyzeStagedChanges`:
find the most recent review for this user and repository (`createdAt desc` —
creation order equals list order here) and mark it FAILED when IN_PROGRESS. -/
def markRecentFailed (db : DB) (userId : Nat) (repositoryPath : String) : DB :=
  match (db.reviews.filter (fun r =>
      r.userId == userId && r.repositoryPath == repositoryPath)).getLast? with
  | some r => if r.status = .IN_PROGRESS then setReviewFailed db r.id else db
  | none => db

/-- `codeAnalysisService.analyzeStagedChanges`: the body, with the `catch`
marking the most recent IN_PROGRESS review FAILED before re-raising. -/
def analyzeStagedChanges (env : AnalyzeEnv) (db : DB) (repositoryPath : String)
    (userId : Nat) : RunOut :=
  let out := stagedBody env db repositoryPath userId
  match out.result with
  | .ok _ => out
  | .error _ => { out with db := markRecentFailed out.db userId repositoryPath }

/-- The `try` body of `analyzeCommit`. -/
def commitBody (env : AnalyzeEnv) (db : DB) (repositoryPath commitHash : String)
    (userId : Nat) : RunOut :=
  if !env.commitExists then
    { result := .error ("Commit " ++ commitHash ++ " not found in repository")
      db := db, calls := [] }
  else
    let (review, db1) := createReview db userId repositoryPath env.branch (some commitHash)
    let diff := env.diffCommit
    if diff = "" || jsTrim diff = "" then
      { result := .error "No changes found in commit", db := db1, calls := [] }
    else
      let parsedDiff := env.parseDiffFn diff
      if parsedDiff.length = 0 then
        { result := .error "Unable to parse commit diff", db := db1, calls := [] }
      else
        runCore env db1 review parsedDiff "No supported files found in commit to analyze"

/-- `codeAnalysisService.analyzeCommit`: its `catch` only logs and re-raises;
no FAILED marking happens there. -/
def analyzeCommit (env : AnalyzeEnv) (db : DB) (repositoryPath commitHash : String)
    (userId : Nat) : RunOut :=
  commitBody env db repositoryPath commitHash userId

/-- Either orchestrator entry point (`true` = staged changes, `false` =
commit analysis), for claims quantifying over both. -/
def runAnalysis (staged : Bool) (env : AnalyzeEnv) (db : DB)
    (repositoryPath commitHash : String) (userId : Nat) : RunOut :=
  if staged then analyzeStagedChanges env db repositoryPath userId
  else analyzeCommit env db repositoryPath commitHash userId

/-- The diff text the run under `runAnalysis` parses. -/
def diffTextOf (staged : Bool) (env : AnalyzeEnv) : String :=
  if staged then
    if env.statusStaged.length > 0 then env.diffCached else env.diffWorking
  else env.diffCommit

/-! ## Observers used by the claim statements -/

/-- The review a successful run returns. -/
def okReview (o : RunOut) : Option Review :=
  match o.result with
  | .ok r => some r
  | .error _ => none

/-- The review `findFirst({ where: \x7b userId, repositoryPath \x7d, orderBy:
createdAt desc })` would return: the most recently created matching review. -/
def mostRecentFor (db : DB) (userId : Nat) (repositoryPath : String) :
    Option Review :=
  (db.reviews.filter (fun r =>
      r.userId == userId && r.repositoryPath == repositoryPath)).getLast?

/-- Does the text contain a `{` with a later `}`?  (Both regexes of the
parser can only match when it does: this is "a JSON object appears somewhere"
at the coarsest level.) -/
def hasBracePair (l : List Char) : Bool :=
  match l.dropWhile (fun c => c ≠ '{') with
  | [] => false
  | _ :: rest => rest.contains '}'

/-! ## Witness inputs (concrete data for the witness theorems) -/

/-- A built-in standard row. -/
def stdW : Standard :=
  { id := "s1", name := "PEP8", description := none, language := "python"
    rules := .null, isActive := true, isBuiltIn := true }

/-- An update body with every field absent. -/
def patchW : StandardPatch :=
  { name := some "renamed", description := none, language := none
    rules := none, isActive := none }

/-- A reply whose JSON object has a non-list `issues` and a truthy numeric
`summary`. -/
def respNonList : String := "\x7b\"issues\": 0, \"summary\": 5\x7d"

/-- `JSON.parse` restricted to `respNonList`: returns exactly the value
`JSON.parse` produces for that text. -/
def jparseNonList : String → Option Json := fun t =>
  if t = respNonList then some (.obj [("issues", .num 0), ("summary", .num 5)])
  else none

/-- A candidate issue with all five required keys present, but an empty
(falsy) `title`. -/
def candEmptyTitle : Json :=
  .obj [("title", .str ""), ("description", .str "d"),
        ("severity", .str "MINOR"), ("category", .str "style"),
        ("line", .num 1)]

/-- A fully valid candidate issue. -/
def candValid : Json :=
  .obj [("title", .str "Real issue"), ("description", .str "d"),
        ("severity", .str "MAJOR"), ("category", .str "bug"),
        ("line", .num 2)]

/-- The serialized reply holding the two candidates above. -/
def respTwoCands : String :=
  "\x7b\"issues\": [\x7b\"title\": \"\", \"description\": \"d\", \"severity\": \"MINOR\", \"category\": \"style\", \"line\": 1\x7d, \x7b\"title\": \"Real issue\", \"description\": \"d\", \"severity\": \"MAJOR\", \"category\": \"bug\", \"line\": 2\x7d]\x7d"

/-- `JSON.parse` restricted to `respTwoCands`: returns exactly the value
`JSON.parse` produces for that text. -/
def jparseTwoCands : String → Option Json := fun t =>
  if t = respTwoCands then some (.obj [("issues", .arr [candEmptyTitle, candValid])])
  else none

/-- The serialized reply whose `issues` array holds a JSON `null` before a
fully valid candidate. -/
def respNullCand : String :=
  "\x7b\"issues\": [null, \x7b\"title\": \"Real issue\", \"description\": \"d\", \"severity\": \"MAJOR\", \"category\": \"bug\", \"line\": 2\x7d]\x7d"

/-- `JSON.parse` restricted to `respNullCand`: returns exactly the value
`JSON.parse` produces for that text. -/
def jparseNullCand : String → Option Json := fun t =>
  if t = respNullCand then some (.obj [("issues", .arr [.null, candValid])])
  else none

/-- An environment whose git status reports no staged and no modified
files. -/
def envEmptyW : AnalyzeEnv :=
  { statusStaged := [], statusModified := [], branch := "main"
    diffCached := "", diffWorking := "", diffCommit := "", commitExists := true
    parseDiffFn := fun _ => [], analyzeCode := fun _ => .error "unused"
    estimateEffort := .error "unused", issueCreateFails := fun _ => false
    timeStart := 0, timeEnd := 0 }

/-- An already-completed review row. -/
def revOneW : Review :=
  { id := 0, userId := 1, repositoryPath := "repo", branch := "main"
    commitHash := none, status := .COMPLETED, filesAnalyzed := 0
    issuesFound := 0, criticalIssues := 0, majorIssues := 0
    minorIssues := 0, estimatedEffort := .null, tokensUsed := 0
    analysisTime := 0, recommendations := emptyRecs }

/-- A database holding one already-completed review. -/
def dbOneW : DB :=
  { reviews := [revOneW], issues := [], standards := []
    nextReviewId := 1, nextIssueId := 0 }

/-- The empty database. -/
def dbEmptyW : DB :=
  { reviews := [], issues := [], standards := [], nextReviewId := 0, nextIssueId := 0 }

/-- An environment whose only changed file has an unsupported extension. -/
def envSkipW : AnalyzeEnv :=
  { statusStaged := ["notes.txt"], statusModified := [], branch := "main"
    diffCached := "DIFF", diffWorking := "", diffCommit := "DIFF"
    commitExists := true
    parseDiffFn := fun _ => [{ «to» := "notes.txt", deleted := false, chunks := [] }]
    analyzeCode := fun _ => .error "unused", estimateEffort := .error "unused"
    issueCreateFails := fun _ => false, timeStart := 0, timeEnd := 0 }

/-- A normalized issue with the given severity and title. -/
def niOf (sev t : String) : NormIssue :=
  { line := .num 1, lineEnd := .num 1, severity := .str sev
    category := .str "bug", title := .str t, description := .str "d"
    suggestion := .str "", autoFixable := false, standard := .null
    documentationNeeded := .null }

/-- A three-issue parsed analysis: one CRITICAL, one MINOR, one INFO. -/
def analysisRunW : AnalysisOutput :=
  { issues := [niOf "CRITICAL" "c1", niOf "MINOR" "m1", niOf "INFO" "i1"]
    summary := .null, recommendations := emptyRecs }

/-- The staged file `a.js` with one added line (long enough to clear the
minimal-change filter). -/
def fileAW : DiffFile :=
  { «to» := "a.js", deleted := false
    chunks := [{ newStart := 1
                 changes := [{ kind := .add, content := "+var x = 1; // init" }] }] }

/-- A diff entry whose extension is not in the supported table. -/
def fileNoteW : DiffFile :=
  { «to» := "notes.txt", deleted := false, chunks := [] }

/-- An environment whose staged diff holds one analyzable file `a.js`
(whose analysis returns the three issues above) next to the unsupported
`notes.txt`, with a working effort estimator. -/
def envRunW : AnalyzeEnv :=
  { statusStaged := ["a.js", "notes.txt"], statusModified := [], branch := "main"
    diffCached := "DIFF", diffWorking := "", diffCommit := "DIFF"
    commitExists := true
    parseDiffFn := fun _ => [fileAW, fileNoteW]
    analyzeCode := fun _ => .ok { analysis := analysisRunW, tokensUsed := 7 }
    estimateEffort := .ok (.obj [("totalEffort", .num 2)])
    issueCreateFails := fun _ => false, timeStart := 0, timeEnd := 0 }

/-- The review returned by the witness run over `envRunW`. -/
def reviewRunW : Review :=
  (okReview (runAnalysis true envRunW dbEmptyW "repo" "" 1)).getD revOneW

end HaufeReview

namespace HaufeReview

/-! ## Claim theorems -/

/-- C10: `setProvider` throws on every argument other than the exact strings
"ollama" and "gemini", before the provider field is assigned — so the state
and hence `getProvider` are unchanged; for the two valid strings it succeeds,
after which `getProvider` returns the new provider and `getService` returns
the corresponding service. -/
theorem setProvider_validation (p : String) (st : AIProviderState) :
    (p ≠ "ollama" → p ≠ "gemini" →
      (setProvider p st).1 =
          .error "Invalid provider. Must be \"ollama\" or \"gemini\"" ∧
        (setProvider p st).2 = st) ∧
    ((p = "ollama" ∨ p = "gemini") →
      (setProvider p st).1 = .ok () ∧ getProvider (setProvider p st).2 = p) ∧
    (p = "ollama" → getService (setProvider p st).2 = .ollama) ∧
    (p = "gemini" → getService (setProvider p st).2 = .gemini) := by
  refine ⟨fun h1 h2 => ?_, fun h => ?_, fun h => ?_, fun h => ?_⟩
  · simp [setProvider, h1, h2]
  · rcases h with h | h <;> subst h <;> simp [setProvider, getProvider]
  · subst h; simp [setProvider, getService]
  · subst h; simp [setProvider, getService]

/-- Witness for C10: the concrete string "bogus" is rejected with the state
untouched; switching to "gemini" succeeds and is observed by `getProvider`
and `getService`. -/
theorem setProvider_validation_witness :
    (setProvider "bogus" ⟨"ollama"⟩).1 =
        .error "Invalid provider. Must be \"ollama\" or \"gemini\"" ∧
      (setProvider "bogus" ⟨"ollama"⟩).2 = ⟨"ollama"⟩ ∧
      getProvider (setProvider "gemini" ⟨"ollama"⟩).2 = "gemini" ∧
      getService (setProvider "gemini" ⟨"ollama"⟩).2 = .gemini :=
  ⟨((setProvider_validation "bogus" ⟨"ollama"⟩).1 (by decide) (by decide)).1,
   ((setProvider_validation "bogus" ⟨"ollama"⟩).1 (by decide) (by decide)).2,
   (((setProvider_validation "gemini" ⟨"ollama"⟩).2.1) (Or.inr rfl)).2,
   ((setProvider_validation "gemini" ⟨"ollama"⟩).2.2.2) rfl⟩

/-- C9: when the standard addressed by `:id` has `isBuiltIn` set, both the
update and the delete route answer 403 and leave the stored standards
unchanged. -/
theorem builtinStandard_immutable (db : List Standard) (id : String)
    (body : StandardPatch) (s : Standard)
    (hfind : findStandard db id = some s) (hbi : s.isBuiltIn = true) :
    (putStandard db id body).1.status = 403 ∧ (putStandard db id body).2 = db ∧
      (deleteStandard db id).1.status = 403 ∧ (deleteStandard db id).2 = db := by
  unfold putStandard deleteStandard
  rw [hfind]
  simp [hbi]

/-! ### No-JSON lemmas for C5 -/

/-- `lazyClose` can only succeed when a `}` occurs in its input. -/
theorem lazyClose_mem_close (l : List Char) :
    ∀ acc x, lazyClose acc l = some x → '}' ∈ l := by
  induction l with
  | nil => intro acc x h; simp [lazyClose] at h
  | cons c rest ih =>
    intro acc x h
    by_cases hc : c == '}'
    · have hce : c = '}' := by simpa using hc
      subst hce
      exact List.mem_cons_self _ _
    · rw [lazyClose, if_neg hc] at h
      exact List.mem_cons_of_mem c (ih _ _ h)

/-- A brace pair inside a suffix also occurs in the whole list. -/
theorem pair_of_suffix {l L : List Char} (h : l <:+ L) (l1 l2 : List Char)
    (he : l = l1 ++ '{' :: l2) (hm : '}' ∈ l2) :
    ∃ m1 m2, L = m1 ++ '{' :: m2 ∧ '}' ∈ m2 := by
  obtain ⟨t, ht⟩ := h
  exact ⟨t ++ l1, l2, by rw [← ht, he, List.append_assoc], hm⟩

/-- Equation lemma for `fencedGroupFrom` under a known `skipWs` result. -/
theorem fencedGroupFrom_eq (l : List Char) (c : Char) (rest : List Char)
    (hw : skipWs l = c :: rest) :
    fencedGroupFrom l =
      if c == '{' then
        (lazyClose [] rest).map (fun inner => '{' :: (inner ++ ['}']))
      else none := by
  unfold fencedGroupFrom
  rw [hw]

/-- `fencedGroupFrom` can only succeed when its input has a `{` followed
later by a `}`. -/
theorem fencedGroupFrom_pair (l : List Char) (g : List Char)
    (h : fencedGroupFrom l = some g) :
    ∃ m1 m2, l = m1 ++ '{' :: m2 ∧ '}' ∈ m2 := by
  rcases hw : skipWs l with _ | ⟨c, rest⟩
  · unfold fencedGroupFrom at h
    rw [hw] at h
    exact absurd h (by simp)
  · rw [fencedGroupFrom_eq l c rest hw] at h
    by_cases hc : c == '{'
    · rw [if_pos hc] at h
      rcases hl : lazyClose [] rest with _ | inner
      · rw [hl] at h; simp at h
      · have hmem : '}' ∈ rest := lazyClose_mem_close rest [] inner hl
        have hsuf : skipWs l <:+ l := List.dropWhile_suffix jsWs
        rw [hw] at hsuf
        have hceq : c = '{' := by simpa using hc
        exact pair_of_suffix hsuf [] rest (by rw [hceq]; rfl) hmem
    · rw [if_neg hc] at h; simp at h

/-- A successful `jsonPrefix` returns a suffix. -/
theorem jsonPrefix_suffix (l r : List Char) (h : jsonPrefix l = some r) :
    r <:+ l := by
  unfold jsonPrefix at h
  rcases l with _ | ⟨a, _ | ⟨b, _ | ⟨c, _ | ⟨d, rest⟩⟩⟩⟩ <;> simp at h
  rcases h with ⟨_, hr⟩
  exact hr ▸ ⟨[a, b, c, d], rfl⟩

/-- Equation lemma for `matchFencedAt` under a known `stripTicks` result. -/
theorem matchFencedAt_eq (l l1 : List Char) (hs : stripTicks l = some l1) :
    matchFencedAt l =
      match jsonPrefix l1 with
      | some l2 =>
        match fencedGroupFrom l2 with
        | some g => some g
        | none => fencedGroupFrom l1
      | none => fencedGroupFrom l1 := by
  unfold matchFencedAt
  rw [hs]

/-- `matchFencedAt` can only succeed when its input has a brace pair. -/
theorem matchFencedAt_pair (l : List Char) (g : List Char)
    (h : matchFencedAt l = some g) :
    ∃ m1 m2, l = m1 ++ '{' :: m2 ∧ '}' ∈ m2 := by
  rcases hs : stripTicks l with _ | l1
  · unfold matchFencedAt at h
    rw [hs] at h
    exact absurd h (by simp)
  · rw [matchFencedAt_eq l l1 hs] at h
    have hsuf : l1 <:+ l := by
      unfold stripTicks at hs
      rcases l with _ | ⟨a, _ | ⟨b, _ | ⟨c, rest⟩⟩⟩ <;> simp at hs
      rcases hs with ⟨_, hr⟩
      exact hr ▸ ⟨[a, b, c], rfl⟩
    have step : ∀ m : List Char, m <:+ l → ∀ gg, fencedGroupFrom m = some gg →
        ∃ m1 m2, l = m1 ++ '{' :: m2 ∧ '}' ∈ m2 := by
      intro m hm gg hgg
      obtain ⟨m1, m2, he, hmem⟩ := fencedGroupFrom_pair m gg hgg
      exact pair_of_suffix hm m1 m2 he hmem
    split at h
    · rename_i l2 hj
      have hsuf2 : l2 <:+ l :=
        List.IsSuffix.trans (jsonPrefix_suffix l1 l2 hj) hsuf
      split at h
      · rename_i g2 hg
        obtain rfl : g2 = g := by simpa using h
        exact step l2 hsuf2 _ hg
      · exact step l1 hsuf g h
    · exact step l1 hsuf g h

/-- The first element surviving `dropWhile` fails the predicate. -/
theorem head_not_pred {α : Type} (p : α → Bool) (l : List α) (c : α)
    (rest : List α) (hd : l.dropWhile p = c :: rest) : p c = false := by
  induction l with
  | nil => simp [List.dropWhile] at hd
  | cons a t ih =>
    by_cases hp : p a
    · rw [List.dropWhile_cons_of_pos hp] at hd
      exact ih hd
    · rw [List.dropWhile_cons_of_neg hp] at hd
      obtain ⟨rfl, -⟩ : a = c ∧ t = rest := by simpa using hd
      simpa using hp

/-- `hasBracePair` is true whenever an explicit brace pair exists. -/
theorem hasBracePair_of_pair (l1 l2 : List Char) (h : '}' ∈ l2) :
    hasBracePair (l1 ++ '{' :: l2) = true := by
  induction l1 with
  | nil =>
    unfold hasBracePair
    rw [List.nil_append,
      List.dropWhile_cons_of_neg (by simp)]
    simpa [List.elem_iff] using h
  | cons a t ih =>
    unfold hasBracePair at ih ⊢
    by_cases ha : a = '{'
    · rw [List.cons_append, List.dropWhile_cons_of_neg (by simp [ha])]
      have : '}' ∈ t ++ '{' :: l2 := List.mem_append_right t (List.mem_cons_of_mem _ h)
      simpa [List.elem_iff] using this
    · rw [List.cons_append, List.dropWhile_cons_of_pos (by simp [ha])]
      exact ih

/-- `hasBracePair` is witnessed by an explicit brace pair. -/
theorem pair_of_hasBracePair (l : List Char) (h : hasBracePair l = true) :
    ∃ m1 m2, l = m1 ++ '{' :: m2 ∧ '}' ∈ m2 := by
  unfold hasBracePair at h
  rcases hd : l.dropWhile (fun c => c ≠ '{') with _ | ⟨c, rest⟩
  · rw [hd] at h; simp at h
  · rw [hd] at h
    have hsuf : c :: rest <:+ l := hd ▸ List.dropWhile_suffix _
    obtain ⟨t, ht⟩ := hsuf
    have hc : c = '{' := by
      have := head_not_pred (fun c => c ≠ '{') l c rest hd
      simpa using this
    exact ⟨t, rest, by rw [← ht, hc], List.elem_iff.mp h⟩

/-- Without a brace pair, the greedy brace-span regex fails. -/
theorem braceSpan_none (l : List Char) (h : hasBracePair l = false) :
    braceSpan l = none := by
  unfold braceSpan
  unfold hasBracePair at h
  rcases hd : l.dropWhile (fun c => c ≠ '{') with _ | ⟨c, rest⟩
  · rfl
  · replace h : rest.contains '}' = false := by rw [hd] at h; simpa using h
    have hnm : '}' ∉ rest := by
      intro hmem
      have hcont : rest.contains '}' = true := List.elem_iff.mpr hmem
      rw [hcont] at h
      exact Bool.noConfusion h
    have hnil : rest.reverse.dropWhile (fun c => c ≠ '}') = [] := by
      rw [List.dropWhile_eq_nil_iff]
      intro x hx
      have hxm : x ∈ rest := List.mem_reverse.mp hx
      simp
      intro hxe
      exact hnm (hxe ▸ hxm)
    simp [hnil]
    exact hnm

/-- Prepending cannot destroy a brace pair. -/
theorem hasBracePair_cons (c : Char) (rest : List Char)
    (h : hasBracePair rest = true) : hasBracePair (c :: rest) = true := by
  obtain ⟨m1, m2, he, hm⟩ := pair_of_hasBracePair rest h
  rw [he, ← List.cons_append]
  exact hasBracePair_of_pair (c :: m1) m2 hm

/-- Without a brace pair, the fenced-block regex fails everywhere. -/
theorem fencedScan_none (l : List Char) (h : hasBracePair l = false) :
    fencedScan l = none := by
  induction l with
  | nil => rfl
  | cons c rest ih =>
    have hrest : hasBracePair rest = false := by
      rcases hb : hasBracePair rest
      · rfl
      · rw [hasBracePair_cons c rest hb] at h
        exact Bool.noConfusion h
    unfold fencedScan
    rcases hm : matchFencedAt (c :: rest) with _ | g
    · exact ih hrest
    · exfalso
      obtain ⟨m1, m2, he, hmem⟩ := matchFencedAt_pair _ g hm
      rw [he, hasBracePair_of_pair m1 m2 hmem] at h
      exact Bool.noConfusion h

/-- C5: on input text containing no `{` followed by a later `}` — hence no
fenced code block with an object and no brace-delimited object anywhere —
`parseAnalysisResponse` returns exactly the empty result (no issues,
all-zero summary, all four recommendation lists empty), for every possible
behaviour of `JSON.parse`; being a total function, it raises nothing. -/
theorem parser_noJson_empty (s : String) (jp : String → Option Json)
    (h : hasBracePair s.data = false) :
    parseAnalysisResponse s jp = emptyAnalysis := by
  have hloc : locateJson s = none := by
    unfold locateJson
    rw [fencedScan_none s.data h, braceSpan_none s.data h]
    rfl
  unfold parseAnalysisResponse
  rw [hloc]

/-- Witness for C5: a plain prose reply with no braces. -/
theorem parser_noJson_empty_witness :
    hasBracePair ("I found no issues in this code.".data) = false ∧
      parseAnalysisResponse "I found no issues in this code."
        (fun _ => some (.arr [])) = emptyAnalysis :=
  ⟨by decide, parser_noJson_empty _ _ (by decide)⟩

/-- The summary computed from an empty issue list is the all-zero summary. -/
theorem computedSummary_nil : computedSummary [] = zeroSummary := by
  unfold computedSummary zeroSummary countSev
  norm_num

/-- Equation lemma for `parseAnalysisResponse` once the JSON text is
located. -/
theorem parseAnalysisResponse_eq (s t : String) (jp : String → Option Json)
    (hloc : locateJson s = some t) :
    parseAnalysisResponse s jp =
      match jp t with
      | none => emptyAnalysis
      | some parsed =>
        let issues : List Json :=
          match parsed.field "issues" with
          | some (.arr l) => l
          | _ => []
        if issues.any Json.isNull then emptyAnalysis
        else
          let validIssues := (issues.filter issueKeep).map normalizeIssue
          { issues := validIssues
            summary := jsOr (parsed.field "summary") (computedSummary validIssues)
            recommendations := recsOf parsed } := by
  unfold parseAnalysisResponse
  rw [hloc]

/-- Equation lemma for `parseAnalysisResponse` once the located text has
been parsed. -/
theorem parseAnalysisResponse_eq2 (s t : String) (jp : String → Option Json)
    (parsed : Json) (hloc : locateJson s = some t) (hp : jp t = some parsed) :
    parseAnalysisResponse s jp =
      if (match parsed.field "issues" with
          | some (.arr l) => l
          | _ => ([] : List Json)).any Json.isNull then emptyAnalysis
      else
        { issues := ((match parsed.field "issues" with
              | some (.arr l) => l
              | _ => []).filter issueKeep).map normalizeIssue
          summary := jsOr (parsed.field "summary")
            (computedSummary (((match parsed.field "issues" with
              | some (.arr l) => l
              | _ => []).filter issueKeep).map normalizeIssue))
          recommendations := recsOf parsed } := by
  rw [parseAnalysisResponse_eq s t jp hloc, hp]

/-- C2 (amended): when `JSON.parse` fails on the located text the parser
returns the empty result; but when parsing succeeds and the top-level
`issues` is not a list, only the issue list is empty — `summary` is taken
from the parsed object whenever it is truthy (all-zero only as a fallback),
and the recommendation lists are taken from the parsed object's
`recommendations` arrays.  In neither case does an error propagate: the
function is total. -/
theorem parser_failure_boundary (s t : String) (jp : String → Option Json)
    (hloc : locateJson s = some t) :
    (jp t = none → parseAnalysisResponse s jp = emptyAnalysis) ∧
    (∀ parsed, jp t = some parsed →
      (∀ l, parsed.field "issues" ≠ some (.arr l)) →
      (parseAnalysisResponse s jp).issues = [] ∧
      (parseAnalysisResponse s jp).summary = jsOr (parsed.field "summary") zeroSummary ∧
      (parseAnalysisResponse s jp).recommendations = recsOf parsed) := by
  constructor
  · intro hn
    rw [parseAnalysisResponse_eq s t jp hloc, hn]
  · intro parsed hp hnl
    have hiss : (match parsed.field "issues" with
        | some (.arr l) => l
        | _ => ([] : List Json)) = ([] : List Json) := by
      rcases hf : parsed.field "issues" with _ | v
      · rfl
      · rcases v with _ | b | q | st | l | fs
        · rfl
        · rfl
        · rfl
        · rfl
        · exact absurd hf (hnl l)
        · rfl
    rw [parseAnalysisResponse_eq2 s t jp parsed hloc hp]
    simp only [hiss, List.any_nil, Bool.false_eq_true, if_false, List.filter_nil,
      List.map_nil, computedSummary_nil]
    exact ⟨trivial, trivial, trivial⟩

set_option maxRecDepth 8192 in
/-- Witness for C2 (amended): the non-list reply text, once with a failing
parse and once with the real parse result. -/
theorem parser_failure_boundary_witness :
    parseAnalysisResponse respNonList (fun _ => none) = emptyAnalysis ∧
      (parseAnalysisResponse respNonList jparseNonList).issues = [] ∧
      (parseAnalysisResponse respNonList jparseNonList).summary =
        jsOr ((Json.obj [("issues", .num 0), ("summary", .num 5)]).field "summary")
          zeroSummary :=
  ⟨(parser_failure_boundary respNonList respNonList (fun _ => none) rfl).1 rfl,
   ((parser_failure_boundary respNonList respNonList jparseNonList rfl).2
      (Json.obj [("issues", .num 0), ("summary", .num 5)]) rfl
      (fun l hcontra => by
        rw [show (Json.obj [("issues", .num 0), ("summary", .num 5)]).field "issues"
            = some (.num 0) from rfl] at hcontra
        simp at hcontra)).1,
   ((parser_failure_boundary respNonList respNonList jparseNonList rfl).2
      (Json.obj [("issues", .num 0), ("summary", .num 5)]) rfl
      (fun l hcontra => by
        rw [show (Json.obj [("issues", .num 0), ("summary", .num 5)]).field "issues"
            = some (.num 0) from rfl] at hcontra
        simp at hcontra)).2.1⟩

set_option maxRecDepth 8192 in
/-- Counterexample to C2 as stated: on `respNonList`, JSON parsing succeeds,
`issues` is not a list, yet the returned summary is the parsed object's
truthy `summary` (5), not the all-zero summary the claim requires. -/
theorem parser_failure_boundary_cex :
    locateJson respNonList = some respNonList ∧
      jparseNonList respNonList =
        some (.obj [("issues", .num 0), ("summary", .num 5)]) ∧
      (parseAnalysisResponse respNonList jparseNonList).issues = [] ∧
      (parseAnalysisResponse respNonList jparseNonList).summary = .num 5 ∧
      (parseAnalysisResponse respNonList jparseNonList).summary ≠ zeroSummary := by
  refine ⟨rfl, rfl, rfl, rfl, ?_⟩
  have h5 : (parseAnalysisResponse respNonList jparseNonList).summary = .num 5 := rfl
  rw [h5]
  simp [zeroSummary]

/-- C6 (amended): for a parsed response whose `issues` is a list holding no
JSON `null` element, the returned issues are exactly the candidates whose
`title`, `description`, `severity` and `category` are present AND truthy (an
empty string fails) and whose `line` key is present (any value, even null),
each normalized; all other candidates — in particular one missing
`severity` — are dropped.  When the list does hold a `null` element, the
filter callback's property access throws a TypeError and the catch returns
the fully empty result, dropping the valid candidates too. -/
theorem parser_issue_filter (s t : String) (jp : String → Option Json)
    (parsed : Json) (lst : List Json)
    (hloc : locateJson s = some t) (hp : jp t = some parsed)
    (hiss : parsed.field "issues" = some (.arr lst)) :
    (lst.any Json.isNull = false →
      (parseAnalysisResponse s jp).issues = (lst.filter issueKeep).map normalizeIssue) ∧
    (lst.any Json.isNull = true →
      parseAnalysisResponse s jp = emptyAnalysis) := by
  rw [parseAnalysisResponse_eq2 s t jp parsed hloc hp]
  simp only [hiss]
  constructor
  · intro h
    rw [h]
    simp
  · intro h
    rw [h]
    simp

set_option maxRecDepth 8192 in
/-- Witness for C6 (amended): the two-candidate reply, where the filter
keeps only the valid candidate; and the null-element reply, where the
TypeError path empties the whole result. -/
theorem parser_issue_filter_witness :
    ([candEmptyTitle, candValid].any Json.isNull = false ∧
      (parseAnalysisResponse respTwoCands jparseTwoCands).issues =
        ([candEmptyTitle, candValid].filter issueKeep).map normalizeIssue) ∧
    ([Json.null, candValid].any Json.isNull = true ∧
      parseAnalysisResponse respNullCand jparseNullCand = emptyAnalysis) :=
  ⟨⟨rfl, (parser_issue_filter respTwoCands respTwoCands jparseTwoCands
      (Json.obj [("issues", .arr [candEmptyTitle, candValid])])
      [candEmptyTitle, candValid] rfl rfl rfl).1 rfl⟩,
   ⟨rfl, (parser_issue_filter respNullCand respNullCand jparseNullCand
      (Json.obj [("issues", .arr [.null, candValid])])
      [.null, candValid] rfl rfl rfl).2 rfl⟩⟩

set_option maxRecDepth 8192 in
/-- Counterexample to C6 as stated: `candEmptyTitle` carries all five
required keys, yet the parser drops it (its `title` is falsy); only the
valid candidate survives. -/
theorem parser_issue_filter_cex :
    (candEmptyTitle.field "title").isSome = true ∧
      (candEmptyTitle.field "description").isSome = true ∧
      (candEmptyTitle.field "severity").isSome = true ∧
      (candEmptyTitle.field "category").isSome = true ∧
      (candEmptyTitle.field "line").isSome = true ∧
      (parseAnalysisResponse respTwoCands jparseTwoCands).issues =
        [normalizeIssue candValid] :=
  ⟨rfl, rfl, rfl, rfl, rfl, rfl⟩

/-! ### Failure-marking lemmas (C3, C4) -/

/-- `setReviewFailed` keeps every review id in place. -/
theorem setReviewFailed_map_id (db : DB) (rid : Nat) :
    (setReviewFailed db rid).reviews.map Review.id = db.reviews.map Review.id := by
  unfold setReviewFailed
  rw [List.map_map]
  apply List.map_congr_left
  intro r _
  by_cases h : r.id == rid
  · simp only [Function.comp_apply, if_pos h]
  · simp only [Function.comp_apply, if_neg h]

/-- `setReviewFailed` does not touch issues. -/
theorem setReviewFailed_issues (db : DB) (rid : Nat) :
    (setReviewFailed db rid).issues = db.issues := rfl

/-- A non-terminal review in the output of `setReviewFailed` was already
stored unchanged. -/
theorem setReviewFailed_nonterminal (db : DB) (rid : Nat) (r : Review)
    (hr : r ∈ (setReviewFailed db rid).reviews)
    (hs : r.status = .IN_PROGRESS ∨ r.status = .PENDING) :
    r ∈ db.reviews := by
  unfold setReviewFailed at hr
  obtain ⟨x, hx, hfx⟩ := List.mem_map.mp hr
  by_cases hid : x.id == rid
  · rw [if_pos hid] at hfx
    subst hfx
    rcases hs with hs | hs <;> exact absurd hs (by simp)
  · rw [if_neg hid] at hfx
    subst hfx
    exact hx

/-- `markRecentFailed` does not touch issues. -/
theorem markRecentFailed_issues (db : DB) (u : Nat) (p : String) :
    (markRecentFailed db u p).issues = db.issues := by
  unfold markRecentFailed
  split
  · split
    · exact setReviewFailed_issues db _
    · rfl
  · rfl

/-- `markRecentFailed` keeps every review id in place. -/
theorem markRecentFailed_map_id (db : DB) (u : Nat) (p : String) :
    (markRecentFailed db u p).reviews.map Review.id = db.reviews.map Review.id := by
  unfold markRecentFailed
  split
  · split
    · exact setReviewFailed_map_id db _
    · rfl
  · rfl

/-- A non-terminal review in the output of `markRecentFailed` was already
stored with that id and status. -/
theorem markRecentFailed_nonterminal (db : DB) (u : Nat) (p : String)
    (r : Review) (hr : r ∈ (markRecentFailed db u p).reviews)
    (hs : r.status = .IN_PROGRESS ∨ r.status = .PENDING) :
    ∃ r0 ∈ db.reviews, r0.id = r.id ∧ r0.status = r.status := by
  unfold markRecentFailed at hr
  split at hr
  · split at hr
    · exact ⟨r, setReviewFailed_nonterminal db _ r hr hs, rfl, rfl⟩
    · exact ⟨r, hr, rfl, rfl⟩
  · exact ⟨r, hr, rfl, rfl⟩

/-- `filter` commutes with a `map` that preserves the predicate. -/
theorem filter_map_comm {α : Type} (l : List α) (f : α → α) (p : α → Bool)
    (h : ∀ x, p (f x) = p x) : (l.map f).filter p = (l.filter p).map f := by
  induction l with
  | nil => rfl
  | cons a t ih =>
    rcases hpa : p a with hf | ht
    · simp [List.filter_cons, h a, hpa, ih]
    · simp [List.filter_cons, h a, hpa, ih]

/-- After `markRecentFailed`, the most recent review for that user and
repository (if any) is not IN_PROGRESS. -/
theorem markRecentFailed_mostRecent (db : DB) (u : Nat) (p : String)
    (r : Review) (hr : mostRecentFor (markRecentFailed db u p) u p = some r) :
    r.status ≠ .IN_PROGRESS := by
  unfold markRecentFailed at hr
  rcases hlast : (db.reviews.filter (fun x =>
      x.userId == u && x.repositoryPath == p)).getLast? with _ | r0
  · rw [hlast] at hr
    replace hr : mostRecentFor db u p = some r := hr
    rw [mostRecentFor, hlast] at hr
    exact Option.noConfusion hr
  · rw [hlast] at hr
    replace hr : mostRecentFor
        (if r0.status = ReviewStatus.IN_PROGRESS then setReviewFailed db r0.id
         else db) u p = some r := hr
    by_cases hst : r0.status = ReviewStatus.IN_PROGRESS
    · rw [if_pos hst] at hr
      unfold mostRecentFor setReviewFailed at hr
      rw [filter_map_comm _ _ _ (fun x => by
        by_cases hx : x.id == r0.id
        · rw [if_pos hx]
        · rw [if_neg hx])] at hr
      rw [List.getLast?_map, hlast] at hr
      replace hr : some (if r0.id == r0.id then
          { r0 with status := ReviewStatus.FAILED } else r0) = some r := hr
      rw [if_pos (by simp)] at hr
      obtain rfl : { r0 with status := ReviewStatus.FAILED } = r := by
        simpa using hr
      intro hcon
      simp at hcon
    · rw [if_neg hst] at hr
      rw [mostRecentFor, hlast] at hr
      obtain rfl : r0 = r := by simpa using hr
      exact hst

/-- Equation lemma: `analyzeStagedChanges` when the body throws. -/
theorem analyzeStagedChanges_error_eq (env : AnalyzeEnv) (db : DB)
    (p : String) (u : Nat) (e : String)
    (hres : (stagedBody env db p u).result = .error e) :
    analyzeStagedChanges env db p u =
      { result := .error e
        db := markRecentFailed (stagedBody env db p u).db u p
        calls := (stagedBody env db p u).calls } := by
  unfold analyzeStagedChanges
  simp only [hres]

/-- Equation lemma: `analyzeStagedChanges` when the body returns. -/
theorem analyzeStagedChanges_ok_eq (env : AnalyzeEnv) (db : DB)
    (p : String) (u : Nat) (r : Review)
    (hres : (stagedBody env db p u).result = .ok r) :
    analyzeStagedChanges env db p u = stagedBody env db p u := by
  unfold analyzeStagedChanges
  simp only [hres]

/-- C3 (amended): when `analyzeStagedChanges` re-raises an error, the most
recently created review for that user and repository path in the final
state — if one exists — is no longer IN_PROGRESS (the catch block marks it
FAILED when it was).  `analyzeCommit` does NOT do this: its catch only logs
and re-raises (see the counterexample). -/
theorem staged_failure_marks_recent (env : AnalyzeEnv) (db : DB) (p : String)
    (u : Nat) (e : String)
    (he : (analyzeStagedChanges env db p u).result = .error e) :
    ∀ r, mostRecentFor (analyzeStagedChanges env db p u).db u p = some r →
      r.status ≠ .IN_PROGRESS := by
  intro r hr
  rcases hres : (stagedBody env db p u).result with e2 | r2
  · rw [analyzeStagedChanges_error_eq env db p u e2 hres] at hr
    exact markRecentFailed_mostRecent (stagedBody env db p u).db u p r hr
  · rw [analyzeStagedChanges_ok_eq env db p u r2 hres, hres] at he
    exact Except.noConfusion he

/-- Witness for C3 (amended): concrete failed staged run over a database
whose most recent review for the user/repository is already COMPLETED. -/
theorem staged_failure_marks_recent_witness :
    revOneW.status ≠ .IN_PROGRESS :=
  staged_failure_marks_recent envEmptyW dbOneW "repo" 1 _ rfl revOneW rfl

/-- Counterexample to C3 as stated: a commit analysis whose diff is empty
creates a review, re-raises "No changes found in commit", and leaves that
review IN_PROGRESS — no best-effort FAILED transition happens in
`analyzeCommit`. -/
theorem commit_failure_leaves_inprogress_cex :
    (analyzeCommit envEmptyW dbEmptyW "repo" "abc" 1).result =
        .error "No changes found in commit" ∧
      (mostRecentFor (analyzeCommit envEmptyW dbEmptyW "repo" "abc" 1).db
          1 "repo").map Review.status = some .IN_PROGRESS :=
  ⟨rfl, rfl⟩

/-! ### Per-file loop lemmas (C1, C7, C8) -/

/-- `find?` over an append whose left part never matches. -/
theorem find?_append_last {α : Type} (l : List α) (x : α) (p : α → Bool)
    (h : ∀ y ∈ l, p y = false) (hx : p x = true) :
    (l ++ [x]).find? p = some x := by
  induction l with
  | nil => simp [List.find?, hx]
  | cons a t ih =>
    have ha : p a = false := h a (by simp)
    rw [List.cons_append, List.find?]
    rw [ha]
    exact ih (fun y hy => h y (by simp [hy]))

/-- Mapping an update that misses every element is the identity. -/
theorem map_miss_id {α : Type} (l : List α) (f : α → α) (hit : α → Bool)
    (h : ∀ x ∈ l, hit x = false) :
    l.map (fun x => if hit x then f x else x) = l := by
  have : l.map (fun x => if hit x then f x else x) = l.map id := by
    apply List.map_congr_left
    intro x hx
    rw [h x hx]
    rfl
  rw [this, List.map_id]

/-- A skipped file leaves the loop state untouched. -/
theorem processFile_skip (env : AnalyzeEnv) (rid : Nat) (stds : List Standard)
    (st : LoopSt) (f : DiffFile) (hsk : fileSurvives f = false) :
    processFile env rid stds st f = st := by
  unfold processFile
  by_cases hd : f.deleted
  · simp [hd]
  · rcases hse : supportedExtensions (extname f.«to») with _ | lang
    · simp [hd, hse]
    · have hlen : (extractChangedCode f = "" ||
          (jsTrim (extractChangedCode f)).length < 10) = true := by
        unfold fileSurvives at hsk
        rw [hse] at hsk
        simp [hd] at hsk
        by_cases hA : extractChangedCode f = ""
        · simp [hA]
        · simp [hA, hsk hA]
      simp [hd, hse, hlen]

/-- The issue-saving loop appends the successfully created rows, in lockstep,
to both the database and `allIssues`; every new row carries the review's id,
a fresh id, and the file's path. -/
theorem saveIssuesLoop_spec (env : AnalyzeEnv) (rid : Nat) (fp code : String)
    (issues : List NormIssue) : ∀ (db : DB) (acc : List Issue) (idx : Nat),
    (saveIssuesLoop env rid fp code issues db acc idx).1.reviews = db.reviews ∧
    (saveIssuesLoop env rid fp code issues db acc idx).1.standards = db.standards ∧
    (saveIssuesLoop env rid fp code issues db acc idx).1.nextReviewId = db.nextReviewId ∧
    db.nextIssueId ≤ (saveIssuesLoop env rid fp code issues db acc idx).1.nextIssueId ∧
    ∃ new, (saveIssuesLoop env rid fp code issues db acc idx).2.1 = acc ++ new ∧
      (saveIssuesLoop env rid fp code issues db acc idx).1.issues = db.issues ++ new ∧
      ∀ i ∈ new, i.reviewId = rid ∧ db.nextIssueId ≤ i.id ∧ i.filePath = fp := by
  induction issues with
  | nil =>
    intro db acc idx
    exact ⟨rfl, rfl, rfl, Nat.le_refl _, [], by simp [saveIssuesLoop],
      by simp [saveIssuesLoop], by simp⟩
  | cons i rest ih =>
    intro db acc idx
    by_cases hf : env.issueCreateFails idx
    · have heq : saveIssuesLoop env rid fp code (i :: rest) db acc idx =
          saveIssuesLoop env rid fp code rest db acc (idx + 1) := by
        rw [saveIssuesLoop, if_pos hf]
      rw [heq]
      exact ih db acc (idx + 1)
    · have heq : saveIssuesLoop env rid fp code (i :: rest) db acc idx =
          saveIssuesLoop env rid fp code rest
            { db with issues := db.issues ++ [mkIssue db rid fp code i]
                      nextIssueId := db.nextIssueId + 1 }
            (acc ++ [mkIssue db rid fp code i]) (idx + 1) := by
        rw [saveIssuesLoop, if_neg hf]
      rw [heq]
      obtain ⟨ha, hb, hc, hd, new, h1, h2, h3⟩ :=
        ih { db with issues := db.issues ++ [mkIssue db rid fp code i]
                     nextIssueId := db.nextIssueId + 1 }
          (acc ++ [mkIssue db rid fp code i]) (idx + 1)
      refine ⟨ha, hb, hc, ?_, mkIssue db rid fp code i :: new, ?_, ?_, ?_⟩
      · exact Nat.le_trans (Nat.le_succ _) hd
      · rw [h1, List.append_assoc]
        rfl
      · rw [h2, List.append_assoc]
        rfl
      · intro j hj
        rcases List.mem_cons.mp hj with rfl | hj2
        · exact ⟨rfl, Nat.le_refl _, rfl⟩
        · obtain ⟨p1, p2, p3⟩ := h3 j hj2
          exact ⟨p1, Nat.le_trans (Nat.le_succ _) p2, p3⟩

/-- One loop iteration: reviews/standards untouched, the file counter grows
by one exactly for surviving files, and new issues/calls belong to this
review and this file. -/
theorem processFile_spec (env : AnalyzeEnv) (rid : Nat) (stds : List Standard)
    (st : LoopSt) (f : DiffFile) :
    (processFile env rid stds st f).db.reviews = st.db.reviews ∧
    (processFile env rid stds st f).db.standards = st.db.standards ∧
    (processFile env rid stds st f).db.nextReviewId = st.db.nextReviewId ∧
    st.db.nextIssueId ≤ (processFile env rid stds st f).db.nextIssueId ∧
    (processFile env rid stds st f).filesAnalyzed =
      st.filesAnalyzed + (if fileSurvives f then 1 else 0) ∧
    (∃ new, (processFile env rid stds st f).allIssues = st.allIssues ++ new ∧
      (processFile env rid stds st f).db.issues = st.db.issues ++ new ∧
      ∀ i ∈ new, i.reviewId = rid ∧ st.db.nextIssueId ≤ i.id ∧
        fileSurvives f = true ∧ i.filePath = f.«to») ∧
    (∃ newC, (processFile env rid stds st f).calls = st.calls ++ newC ∧
      ∀ c ∈ newC, fileSurvives f = true ∧ c.filePath = f.«to») := by
  by_cases hsk : fileSurvives f
  · have hd : f.deleted = false := by
      unfold fileSurvives at hsk
      rcases hdc : f.deleted
      · rfl
      · rw [hdc] at hsk
        simp at hsk
    obtain ⟨lang, hse⟩ : ∃ lang, supportedExtensions (extname f.«to») = some lang := by
      unfold fileSurvives at hsk
      rcases hs2 : supportedExtensions (extname f.«to») with _ | lang
      · rw [hs2] at hsk
        simp at hsk
      · exact ⟨lang, rfl⟩
    have hcond : (extractChangedCode f = "" ||
        (jsTrim (extractChangedCode f)).length < 10) = false := by
      unfold fileSurvives at hsk
      rw [hse] at hsk
      simp [hd] at hsk
      by_cases hA : extractChangedCode f = ""
      · exact absurd hA hsk.1
      · simp [hA]
        exact hsk.2
    rcases hai : env.analyzeCode st.aiIdx with e | res
    · have heq : processFile env rid stds st f =
          { st with filesAnalyzed := st.filesAnalyzed + 1
                    aiIdx := st.aiIdx + 1
                    calls := st.calls ++
                      [{ code := extractChangedCode f, filePath := f.«to»
                         language := lang
                         standards := stds.filter (fun s =>
                           s.language = lang || s.language = "all") }] } := by
        unfold processFile
        simp only [hd, hse, hcond, hai]
        simp
      rw [heq, if_pos hsk]
      exact ⟨rfl, rfl, rfl, Nat.le_refl _, rfl,
        ⟨[], by simp, by simp, by simp⟩,
        ⟨[_], rfl, by
          intro c hc
          rcases List.mem_singleton.mp hc with rfl
          exact ⟨hsk, rfl⟩⟩⟩
    · have heq : processFile env rid stds st f =
          (let st1 : LoopSt :=
            { st with filesAnalyzed := st.filesAnalyzed + 1
                      aiIdx := st.aiIdx + 1
                      calls := st.calls ++
                        [{ code := extractChangedCode f, filePath := f.«to»
                           language := lang
                           standards := stds.filter (fun s =>
                             s.language = lang || s.language = "all") }] }
           { st1 with
              totalTokens := st1.totalTokens + res.tokensUsed
              recs := concatRecs st1.recs res.analysis.recommendations
              db := (saveIssuesLoop env rid f.«to» (extractChangedCode f)
                res.analysis.issues st.db st.allIssues st.issueIdx).1
              allIssues := (saveIssuesLoop env rid f.«to» (extractChangedCode f)
                res.analysis.issues st.db st.allIssues st.issueIdx).2.1
              issueIdx := (saveIssuesLoop env rid f.«to» (extractChangedCode f)
                res.analysis.issues st.db st.allIssues st.issueIdx).2.2 }) := by
        unfold processFile
        simp only [hd, hse, hcond, hai]
        simp
      obtain ⟨ha, hb, hc, hle, new, h1, h2, h3⟩ :=
        saveIssuesLoop_spec env rid f.«to» (extractChangedCode f)
          res.analysis.issues st.db st.allIssues st.issueIdx
      rw [heq, if_pos hsk]
      exact ⟨ha, hb, hc, hle, rfl,
        ⟨new, h1, h2, fun i hi => by
          obtain ⟨p1, p2, p3⟩ := h3 i hi
          exact ⟨p1, p2, hsk, p3⟩⟩,
        ⟨[_], rfl, by
          intro c hc
          rcases List.mem_singleton.mp hc with rfl
          exact ⟨hsk, rfl⟩⟩⟩
  · have hskf : fileSurvives f = false := by simpa using hsk
    rw [processFile_skip env rid stds st f hskf, if_neg hsk]
    exact ⟨rfl, rfl, rfl, Nat.le_refl _, rfl,
      ⟨[], by simp, by simp, by simp⟩, ⟨[], by simp, by simp⟩⟩

/-- The whole per-file loop: reviews/standards untouched, `filesAnalyzed`
counts exactly the surviving files, and all new issues and AI calls carry
this review's id and a surviving file's path. -/
theorem processFiles_spec (env : AnalyzeEnv) (rid : Nat) (stds : List Standard)
    (files : List DiffFile) : ∀ st : LoopSt,
    (files.foldl (processFile env rid stds) st).db.reviews = st.db.reviews ∧
    (files.foldl (processFile env rid stds) st).db.standards = st.db.standards ∧
    (files.foldl (processFile env rid stds) st).db.nextReviewId = st.db.nextReviewId ∧
    st.db.nextIssueId ≤ (files.foldl (processFile env rid stds) st).db.nextIssueId ∧
    (files.foldl (processFile env rid stds) st).filesAnalyzed =
      st.filesAnalyzed + (files.filter fileSurvives).length ∧
    (∃ new, (files.foldl (processFile env rid stds) st).allIssues = st.allIssues ++ new ∧
      (files.foldl (processFile env rid stds) st).db.issues = st.db.issues ++ new ∧
      ∀ i ∈ new, i.reviewId = rid ∧ st.db.nextIssueId ≤ i.id ∧
        i.filePath ∈ (files.filter fileSurvives).map (fun f => f.«to»)) ∧
    (∃ newC, (files.foldl (processFile env rid stds) st).calls = st.calls ++ newC ∧
      ∀ c ∈ newC, c.filePath ∈ (files.filter fileSurvives).map (fun f => f.«to»)) := by
  induction files with
  | nil =>
    intro st
    exact ⟨rfl, rfl, rfl, Nat.le_refl _, by simp,
      ⟨[], by simp, by simp, by simp⟩, ⟨[], by simp, by simp⟩⟩
  | cons f rest ih =>
    intro st
    rw [List.foldl_cons]
    obtain ⟨a1, a2, a3, a4, a5, ⟨n1, i1, i2, i3⟩, ⟨c1, k1, k2⟩⟩ :=
      processFile_spec env rid stds st f
    obtain ⟨b1, b2, b3, b4, b5, ⟨n2, j1, j2, j3⟩, ⟨c2, m1, m2⟩⟩ :=
      ih (processFile env rid stds st f)
    have hmem : ∀ q : String, q ∈ (rest.filter fileSurvives).map (fun g => g.«to») →
        q ∈ ((f :: rest).filter fileSurvives).map (fun g => g.«to») := by
      intro q hq
      rw [List.filter_cons]
      by_cases hf : fileSurvives f
      · rw [if_pos hf, List.map_cons]
        exact List.mem_cons_of_mem _ hq
      · rw [if_neg hf]
        exact hq
    have hmemf : fileSurvives f = true →
        f.«to» ∈ ((f :: rest).filter fileSurvives).map (fun g => g.«to») := by
      intro hf
      rw [List.filter_cons, if_pos hf, List.map_cons]
      exact List.mem_cons_self _ _
    refine ⟨b1.trans a1, b2.trans a2, b3.trans a3, Nat.le_trans a4 b4, ?_, ?_, ?_⟩
    · rw [b5, a5, List.filter_cons]
      by_cases hf : fileSurvives f
      · rw [if_pos hf, if_pos hf]
        simp
        omega
      · rw [if_neg hf, if_neg hf]
        simp
    · refine ⟨n1 ++ n2, ?_, ?_, ?_⟩
      · rw [j1, i1, List.append_assoc]
      · rw [j2, i2, List.append_assoc]
      · intro i hi
        rcases List.mem_append.mp hi with hi1 | hi2
        · obtain ⟨p1, p2, p3, p4⟩ := i3 i hi1
          exact ⟨p1, p2, p4 ▸ hmemf p3⟩
        · obtain ⟨p1, p2, p3⟩ := j3 i hi2
          refine ⟨p1, Nat.le_trans a4 p2, hmem _ p3⟩
    · refine ⟨c1 ++ c2, ?_, ?_⟩
      · rw [m1, k1, List.append_assoc]
      · intro c hcm
        rcases List.mem_append.mp hcm with hc1 | hc2
        · obtain ⟨p1, p2⟩ := k2 c hc1
          exact p2 ▸ hmemf p1
        · exact hmem _ (m2 c hc2)

/-- The effort-breakdown loop only rewrites the `effort` column: the final
issue table is a pointwise image of the old one under a map that preserves
id, review id, severity and file path, and leaves rows untouched whose id
belongs to none of the loop's candidate issues. -/
theorem effortLoop_shape (A : List Issue) (items : List Json) : ∀ db : DB,
    ∃ g : Issue → Issue,
      effortLoop A items db = { db with issues := db.issues.map g } ∧
      (∀ x, (g x).id = x.id ∧ (g x).reviewId = x.reviewId ∧
        (g x).severity = x.severity ∧ (g x).filePath = x.filePath) ∧
      (∀ x, (∀ a ∈ A, x.id ≠ a.id) → g x = x) := by
  induction items with
  | nil =>
    intro db
    refine ⟨id, ?_, fun x => ⟨rfl, rfl, rfl, rfl⟩, fun x _ => rfl⟩
    cases db
    simp [effortLoop]
  | cons item rest ih =>
    intro db
    rcases hfind : A.find? (fun i =>
        match item.field "issue" with
        | some v => jsStrictEq i.title v
        | none => false) with _ | issue
    · have heq : effortLoop A (item :: rest) db = effortLoop A rest db := by
        rw [effortLoop, hfind]
      rw [heq]
      exact ih db
    · by_cases heff : jsTruthyOpt (item.field "effort")
      · have heq : effortLoop A (item :: rest) db =
            effortLoop A rest
              (setIssueEffort db issue.id ((item.field "effort").getD .null)) := by
          rw [effortLoop, hfind]
          change effortLoop A rest (if jsTruthyOpt (item.field "effort") = true then setIssueEffort db issue.id ((item.field "effort").getD .null) else db) = _
          rw [if_pos heff]
        rw [heq]
        obtain ⟨g, hg, hprops, hmiss⟩ :=
          ih (setIssueEffort db issue.id ((item.field "effort").getD .null))
        refine ⟨fun x => g (if x.id == issue.id then
            { x with effort := (item.field "effort").getD .null } else x), ?_, ?_, ?_⟩
        · rw [hg]
          unfold setIssueEffort
          simp [List.map_map]
        · intro x
          by_cases hx : x.id == issue.id
          · have hq := hprops { x with effort := (item.field "effort").getD .null }
            simpa [hx] using hq
          · have hq := hprops x
            simpa [hx] using hq
        · intro x hxnot
          have hissmem : issue ∈ A := List.mem_of_find?_eq_some hfind
          have hxid : (x.id == issue.id) = false := by
            simp [hxnot issue hissmem]
          simpa [hxid] using hmiss x hxnot
      · have heq : effortLoop A (item :: rest) db = effortLoop A rest db := by
          rw [effortLoop, hfind]
          change effortLoop A rest (if jsTruthyOpt (item.field "effort") = true then setIssueEffort db issue.id ((item.field "effort").getD .null) else db) = _
          rw [if_neg heff]
        rw [heq]
        exact ih db

/-- `updateReviewRet` on a table ending in the addressed row: the row is
transformed and returned, everything else is untouched. -/
theorem updateReviewRet_append (db : DB) (rs0 : List Review) (review : Review)
    (f : Review → Review) (hrev : db.reviews = rs0 ++ [review])
    (hold : ∀ x ∈ rs0, (x.id == review.id) = false) :
    updateReviewRet db review.id f =
      (some (f review), { db with reviews := rs0 ++ [f review] }) := by
  unfold updateReviewRet
  rw [hrev, find?_append_last rs0 review _ hold (by simp)]
  have hmap : (rs0 ++ [review]).map
      (fun x => if x.id == review.id then f x else x) = rs0 ++ [f review] := by
    rw [List.map_append]
    congr 1
    · exact map_miss_id rs0 f _ hold
    · simp
  change (some (f review), { db with reviews := (rs0 ++ [review]).map (fun x : Review => if x.id == review.id then f x else x) }) = _
  rw [hmap]

/-- `runCoreAfterLoop` when no file survived: review FAILED, error raised. -/
theorem runCoreAfterLoop_zero (env : AnalyzeEnv) (review : Review)
    (msg : String) (st : LoopSt) (h : st.filesAnalyzed = 0) :
    runCoreAfterLoop env review msg st =
      { result := .error msg, db := setReviewFailed st.db review.id
        calls := st.calls } := by
  unfold runCoreAfterLoop
  rw [if_pos h]

/-- The database component of the effort step is an effort-only rewrite of
the issue table. -/
theorem effortStepOf_shape (env : AnalyzeEnv) (A : List Issue) (db : DB) :
    ∃ g : Issue → Issue,
      (effortStepOf env A db).2 = { db with issues := db.issues.map g } ∧
      (∀ x, (g x).id = x.id ∧ (g x).reviewId = x.reviewId ∧
        (g x).severity = x.severity ∧ (g x).filePath = x.filePath) ∧
      (∀ x, (∀ a ∈ A, x.id ≠ a.id) → g x = x) := by
  have hid : ∃ g : Issue → Issue,
      db = { db with issues := db.issues.map g } ∧
      (∀ x, (g x).id = x.id ∧ (g x).reviewId = x.reviewId ∧
        (g x).severity = x.severity ∧ (g x).filePath = x.filePath) ∧
      (∀ x, (∀ a ∈ A, x.id ≠ a.id) → g x = x) := by
    refine ⟨id, ?_, fun x => ⟨rfl, rfl, rfl, rfl⟩, fun x _ => rfl⟩
    cases db
    simp
  have hbr : ∀ v : Option Json, ∃ g : Issue → Issue,
      breakdownDbOf A db v = { db with issues := db.issues.map g } ∧
      (∀ x, (g x).id = x.id ∧ (g x).reviewId = x.reviewId ∧
        (g x).severity = x.severity ∧ (g x).filePath = x.filePath) ∧
      (∀ x, (∀ a ∈ A, x.id ≠ a.id) → g x = x) := by
    intro v
    rcases v with _ | w
    · exact hid
    · rcases w with _ | b | q | s2 | items | fs
      · exact hid
      · exact hid
      · exact hid
      · exact hid
      · exact effortLoop_shape A items db
      · exact hid
  unfold effortStepOf
  by_cases hlen : A.length > 0
  · rw [if_pos hlen]
    rcases env.estimateEffort with e | est
    · exact hid
    · exact hbr (est.field "breakdown")
  · rw [if_neg hlen]
    exact hid

/-- `runCoreAfterLoop` on a state with surviving files: the review row is
completed in place with the severity counts computed from the saved issues,
and the final issue table realizes exactly those counts. -/
theorem runCoreAfterLoop_ok (env : AnalyzeEnv) (review : Review) (msg : String)
    (st : LoopSt) (rs0 : List Review) (iss0 : List Issue)
    (hfa : st.filesAnalyzed ≠ 0)
    (hrev : st.db.reviews = rs0 ++ [review])
    (hold : ∀ x ∈ rs0, (x.id == review.id) = false)
    (hiss : st.db.issues = iss0 ++ st.allIssues)
    (hrid0 : ∀ i ∈ iss0, (i.reviewId == review.id) = false)
    (hdisj : ∀ i ∈ iss0, ∀ a ∈ st.allIssues, i.id ≠ a.id)
    (hallrid : ∀ a ∈ st.allIssues, a.reviewId = review.id) :
    ∃ db3,
      runCoreAfterLoop env review msg st =
        { result := .ok (completionFn env st (effortStepOf env st.allIssues st.db).1 review)
          db := db3, calls := st.calls } ∧
      db3.reviews.find? (fun x => x.id == review.id) =
        some (completionFn env st (effortStepOf env st.allIssues st.db).1 review) ∧
      (∀ sev : String,
        (db3.issues.filter (fun i =>
          i.reviewId == review.id && jsStrictEq i.severity (.str sev))).length =
        (st.allIssues.filter (fun i => jsStrictEq i.severity (.str sev))).length) ∧
      (db3.issues.filter (fun i => i.reviewId == review.id)).length =
        st.allIssues.length ∧
      (∃ new, db3.issues = iss0 ++ new ∧
        ∀ i ∈ new, ∃ a ∈ st.allIssues, i.filePath = a.filePath) := by
  obtain ⟨g, hg, hprops, hmiss⟩ := effortStepOf_shape env st.allIssues st.db
  have hrev2 : (effortStepOf env st.allIssues st.db).2.reviews = rs0 ++ [review] := by
    rw [hg]
    exact hrev
  have hupd := updateReviewRet_append (effortStepOf env st.allIssues st.db).2
    rs0 review (completionFn env st (effortStepOf env st.allIssues st.db).1)
    hrev2 hold
  have hrun : runCoreAfterLoop env review msg st =
      { result := .ok (completionFn env st (effortStepOf env st.allIssues st.db).1 review)
        db := { (effortStepOf env st.allIssues st.db).2 with
                reviews := rs0 ++ [completionFn env st (effortStepOf env st.allIssues st.db).1 review] }
        calls := st.calls } := by
    unfold runCoreAfterLoop
    rw [if_neg hfa, hupd]
  set db3 : DB := { (effortStepOf env st.allIssues st.db).2 with
    reviews := rs0 ++ [completionFn env st (effortStepOf env st.allIssues st.db).1 review] } with hdb3
  have hissdb3 : db3.issues = iss0.map g ++ st.allIssues.map g := by
    rw [hdb3]
    show (effortStepOf env st.allIssues st.db).2.issues = _
    rw [hg]
    show st.db.issues.map g = _
    rw [hiss, List.map_append]
  have hg0 : iss0.map g = iss0 := by
    have : iss0.map g = iss0.map id := by
      apply List.map_congr_left
      intro i hi
      exact hmiss i (hdisj i hi)
    rw [this, List.map_id]
  refine ⟨db3, hrun, ?_, ?_, ?_, ?_⟩
  · rw [hdb3]
    show (rs0 ++ [completionFn env st (effortStepOf env st.allIssues st.db).1 review]).find?
      (fun x => x.id == review.id) = _
    exact find?_append_last rs0 _ _ hold (by simp [completionFn])
  · intro sev
    rw [hissdb3, hg0, List.filter_append]
    have h0 : iss0.filter (fun i =>
        i.reviewId == review.id && jsStrictEq i.severity (.str sev)) = [] := by
      rw [List.filter_eq_nil_iff]
      intro i hi
      simp [hrid0 i hi]
    rw [h0, List.nil_append]
    rw [filter_map_comm _ _ _ (fun x => by
      obtain ⟨q1, q2, q3, q4⟩ := hprops x
      rw [q2, q3])]
    rw [List.length_map]
    congr 1
    apply List.filter_congr
    intro a ha
    simp [hallrid a ha]
  · rw [hissdb3, hg0, List.filter_append]
    have h0 : iss0.filter (fun i => i.reviewId == review.id) = [] := by
      rw [List.filter_eq_nil_iff]
      intro i hi
      simp [hrid0 i hi]
    rw [h0, List.nil_append]
    have hall : (st.allIssues.map g).filter (fun i => i.reviewId == review.id) =
        st.allIssues.map g := by
      rw [List.filter_eq_self]
      intro a ha
      obtain ⟨x, hx, rfl⟩ := List.mem_map.mp ha
      obtain ⟨q1, q2, q3, q4⟩ := hprops x
      rw [q2]
      simp [hallrid x hx]
    rw [hall, List.length_map]
  · refine ⟨st.allIssues.map g, by rw [hissdb3, hg0], ?_⟩
    intro i hi
    obtain ⟨x, hx, rfl⟩ := List.mem_map.mp hi
    exact ⟨x, hx, (hprops x).2.2.2⟩

/-- Equation lemma: `stagedBody` reaching the core loop. -/
theorem stagedBody_core_eq (env : AnalyzeEnv) (db : DB) (p : String) (u : Nat)
    (h1 : ¬(env.statusStaged.length = 0 ∧ env.statusModified.length = 0))
    (h2 : (diffTextOf true env = "" || jsTrim (diffTextOf true env) = "") = false)
    (h3 : ¬(env.parseDiffFn (diffTextOf true env)).length = 0) :
    stagedBody env db p u =
      runCore env (createReview db u p env.branch none).2
        (createReview db u p env.branch none).1
        (env.parseDiffFn (diffTextOf true env))
        "No supported files found to analyze. Make sure you have code files with supported extensions (.js, .jsx, .ts, .tsx, .py, .java, etc.)" := by
  have hD : (if env.statusStaged.length > 0 then env.diffCached else env.diffWorking) =
      diffTextOf true env := rfl
  unfold stagedBody
  rw [if_neg h1]
  simp only [hD]
  rw [if_neg (by simp [h2]), if_neg h3]

/-- Equation lemma: `commitBody` reaching the core loop. -/
theorem commitBody_core_eq (env : AnalyzeEnv) (db : DB) (p ch : String) (u : Nat)
    (h1 : env.commitExists = true)
    (h2 : (diffTextOf false env = "" || jsTrim (diffTextOf false env) = "") = false)
    (h3 : ¬(env.parseDiffFn (diffTextOf false env)).length = 0) :
    commitBody env db p ch u =
      runCore env (createReview db u p env.branch (some ch)).2
        (createReview db u p env.branch (some ch)).1
        (env.parseDiffFn (diffTextOf false env))
        "No supported files found in commit to analyze" := by
  have hD : env.diffCommit = diffTextOf false env := rfl
  unfold commitBody
  simp only [h1, Bool.not_true]
  rw [if_neg (by simp)]
  simp only [hD]
  rw [if_neg (by simp [h2]), if_neg h3]

/-- When every file is filtered out, the loop is a no-op. -/
theorem processFiles_allSkipped (env : AnalyzeEnv) (rid : Nat)
    (stds : List Standard) (files : List DiffFile)
    (h : ∀ f ∈ files, fileSurvives f = false) :
    ∀ st, files.foldl (processFile env rid stds) st = st := by
  induction files with
  | nil => intro st; rfl
  | cons f rest ih =>
    intro st
    rw [List.foldl_cons, processFile_skip env rid stds st f (h f (by simp))]
    exact ih (fun g hg => h g (by simp [hg])) st

/-- In a well-formed database no stored review carries the next fresh id. -/
theorem wf_review_ids (db : DB) (hwf : db.wf = true) :
    ∀ x ∈ db.reviews, (x.id == db.nextReviewId) = false := by
  intro x hx
  unfold DB.wf at hwf
  simp only [Bool.and_eq_true, List.all_eq_true] at hwf
  have hlt := hwf.1 x hx
  simp at hlt
  simp [Nat.ne_of_lt hlt]

/-- In a well-formed database no stored issue references the next fresh
review id, and all issue ids are below the next fresh issue id. -/
theorem wf_issue_facts (db : DB) (hwf : db.wf = true) :
    ∀ i ∈ db.issues, (i.reviewId == db.nextReviewId) = false ∧
      i.id < db.nextIssueId := by
  intro i hi
  unfold DB.wf at hwf
  simp only [Bool.and_eq_true, List.all_eq_true] at hwf
  have h2 := hwf.2 i hi
  simp at h2
  exact ⟨by simp [Nat.ne_of_lt h2.1], h2.2⟩

/-- All-skipped run of the shared core: the created review is marked FAILED
and the zero-files error is raised. -/
theorem run_zero_core (env : AnalyzeEnv) (db : DB) (u : Nat) (p b : String)
    (cm : Option String) (msg : String) (files : List DiffFile)
    (hskip : ∀ f ∈ files, fileSurvives f = false) :
    runCore env (createReview db u p b cm).2 (createReview db u p b cm).1
        files msg =
      { result := .error msg
        db := setReviewFailed (createReview db u p b cm).2 db.nextReviewId
        calls := [] } := by
  unfold runCore
  change runCoreAfterLoop env (createReview db u p b cm).1 msg
    (List.foldl (processFile env (createReview db u p b cm).1.id
      (List.filter (fun s => s.isActive) (createReview db u p b cm).2.standards))
      (initLoopSt (createReview db u p b cm).2) files) = _
  rw [processFiles_allSkipped env _ _ files hskip (initLoopSt _)]
  rw [runCoreAfterLoop_zero _ _ _ _ rfl]
  rfl

/-- Marking the freshly created review FAILED rewrites only that row. -/
theorem setReviewFailed_created (db : DB) (u : Nat) (p b : String)
    (cm : Option String) (hwf : db.wf = true) :
    setReviewFailed (createReview db u p b cm).2 db.nextReviewId =
      { (createReview db u p b cm).2 with
        reviews := db.reviews ++
          [{ (createReview db u p b cm).1 with status := .FAILED }] } := by
  unfold setReviewFailed createReview
  simp only [List.map_append]
  rw [map_miss_id db.reviews _ _ (wf_review_ids db hwf)]
  simp

/-- `markRecentFailed` is a no-op when the last review for the user and
repository is already FAILED. -/
theorem markRecentFailed_noop (db0 : DB) (rs : List Review) (r : Review)
    (u : Nat) (p : String) (hrev : db0.reviews = rs ++ [r])
    (hu : r.userId = u) (hp : r.repositoryPath = p) (hst : r.status = .FAILED) :
    markRecentFailed db0 u p = db0 := by
  unfold markRecentFailed
  have hfilt : db0.reviews.filter (fun x => x.userId == u && x.repositoryPath == p) =
      rs.filter (fun x => x.userId == u && x.repositoryPath == p) ++ [r] := by
    rw [hrev, List.filter_append]
    congr 1
    simp [hu, hp]
  rw [hfilt, List.getLast?_concat]
  change (if r.status = ReviewStatus.IN_PROGRESS then setReviewFailed db0 r.id else db0) = db0
  rw [if_neg (by rw [hst]; exact fun hcon => ReviewStatus.noConfusion hcon)]

/-- C8: whenever the git-status/diff/parse preconditions pass but zero files
survive the three filters, both orchestrator functions mark the created
review FAILED and raise the "no supported files" error (`staged = true` is
the staged-changes analysis, `false` the commit analysis). -/
theorem zero_survivors_failed (staged : Bool) (env : AnalyzeEnv) (db : DB)
    (p ch : String) (u : Nat) (hwf : db.wf = true)
    (hpre : staged = true → ¬(env.statusStaged.length = 0 ∧ env.statusModified.length = 0))
    (hpre2 : staged = false → env.commitExists = true)
    (hdiff : (diffTextOf staged env = "" || jsTrim (diffTextOf staged env) = "") = false)
    (hfiles : ¬(env.parseDiffFn (diffTextOf staged env)).length = 0)
    (hskip : ∀ f ∈ env.parseDiffFn (diffTextOf staged env), fileSurvives f = false) :
    (runAnalysis staged env db p ch u).result =
      .error (if staged then "No supported files found to analyze. Make sure you have code files with supported extensions (.js, .jsx, .ts, .tsx, .py, .java, etc.)"
              else "No supported files found in commit to analyze") ∧
    ∃ r, (runAnalysis staged env db p ch u).db.reviews.find?
        (fun x => x.id == db.nextReviewId) = some r ∧ r.status = .FAILED := by
  cases staged
  · have hbody : commitBody env db p ch u =
        { result := .error "No supported files found in commit to analyze"
          db := setReviewFailed (createReview db u p env.branch (some ch)).2 db.nextReviewId
          calls := [] } := by
      rw [commitBody_core_eq env db p ch u (hpre2 rfl) hdiff hfiles,
        run_zero_core env db u p env.branch (some ch) _ _ hskip]
    have hout : runAnalysis false env db p ch u = commitBody env db p ch u := rfl
    rw [hout, hbody, setReviewFailed_created db u p env.branch (some ch) hwf]
    refine ⟨rfl, ⟨{ (createReview db u p env.branch (some ch)).1 with status := .FAILED }, ?_, rfl⟩⟩
    exact find?_append_last db.reviews _ _ (wf_review_ids db hwf) (by simp [createReview])
  · have hbody : stagedBody env db p u =
        { result := .error "No supported files found to analyze. Make sure you have code files with supported extensions (.js, .jsx, .ts, .tsx, .py, .java, etc.)"
          db := setReviewFailed (createReview db u p env.branch none).2 db.nextReviewId
          calls := [] } := by
      rw [stagedBody_core_eq env db p u (hpre rfl) hdiff hfiles,
        run_zero_core env db u p env.branch none _ _ hskip]
    have herr : (stagedBody env db p u).result =
        .error "No supported files found to analyze. Make sure you have code files with supported extensions (.js, .jsx, .ts, .tsx, .py, .java, etc.)" := by
      rw [hbody]
    have hout : runAnalysis true env db p ch u = analyzeStagedChanges env db p u := rfl
    rw [hout, analyzeStagedChanges_error_eq env db p u _ herr, hbody]
    rw [setReviewFailed_created db u p env.branch none hwf]
    have hnoop := markRecentFailed_noop
      { (createReview db u p env.branch none).2 with
        reviews := db.reviews ++ [{ (createReview db u p env.branch none).1 with status := .FAILED }] }
      db.reviews { (createReview db u p env.branch none).1 with status := .FAILED }
      u p rfl rfl rfl rfl
    rw [hnoop]
    refine ⟨rfl, ⟨{ (createReview db u p env.branch none).1 with status := .FAILED }, ?_, rfl⟩⟩
    exact find?_append_last db.reviews _ _ (wf_review_ids db hwf) (by simp [createReview])

/-- Full specification of the shared core on a fresh review over a
well-formed database: every AI call and every new issue belongs to a
surviving file, and a COMPLETED run's counters match the persisted rows. -/
theorem runCore_spec (env : AnalyzeEnv) (db : DB) (u : Nat) (p b : String)
    (cm : Option String) (msg : String) (files : List DiffFile)
    (hwf : db.wf = true) :
    (∀ c ∈ (runCore env (createReview db u p b cm).2 (createReview db u p b cm).1 files msg).calls,
      c.filePath ∈ (files.filter fileSurvives).map (fun f => f.«to»)) ∧
    (∃ new, (runCore env (createReview db u p b cm).2 (createReview db u p b cm).1 files msg).db.issues =
        db.issues ++ new ∧
      ∀ i ∈ new, i.filePath ∈ (files.filter fileSurvives).map (fun f => f.«to»)) ∧
    (∀ r, (runCore env (createReview db u p b cm).2 (createReview db u p b cm).1 files msg).result = .ok r →
      r.filesAnalyzed = (files.filter fileSurvives).length ∧
      r.status = .COMPLETED ∧
      (runCore env (createReview db u p b cm).2 (createReview db u p b cm).1 files msg).db.reviews.find?
        (fun x => x.id == r.id) = some r ∧
      (∀ sev : String,
        ((runCore env (createReview db u p b cm).2 (createReview db u p b cm).1 files msg).db.issues.filter
          (fun i => i.reviewId == r.id && jsStrictEq i.severity (.str sev))).length =
        (((files.foldl (processFile env (createReview db u p b cm).1.id
            ((createReview db u p b cm).2.standards.filter (fun s => s.isActive)))
            (initLoopSt (createReview db u p b cm).2)).allIssues).filter
          (fun i => jsStrictEq i.severity (.str sev))).length) ∧
      r.criticalIssues = (((files.foldl (processFile env (createReview db u p b cm).1.id
          ((createReview db u p b cm).2.standards.filter (fun s => s.isActive)))
          (initLoopSt (createReview db u p b cm).2)).allIssues).filter
        (fun i => jsStrictEq i.severity (.str "CRITICAL"))).length ∧
      r.majorIssues = (((files.foldl (processFile env (createReview db u p b cm).1.id
          ((createReview db u p b cm).2.standards.filter (fun s => s.isActive)))
          (initLoopSt (createReview db u p b cm).2)).allIssues).filter
        (fun i => jsStrictEq i.severity (.str "MAJOR"))).length ∧
      r.minorIssues = (((files.foldl (processFile env (createReview db u p b cm).1.id
          ((createReview db u p b cm).2.standards.filter (fun s => s.isActive)))
          (initLoopSt (createReview db u p b cm).2)).allIssues).filter
        (fun i => jsStrictEq i.severity (.str "MINOR"))).length ∧
      r.issuesFound = ((runCore env (createReview db u p b cm).2 (createReview db u p b cm).1 files msg).db.issues.filter
        (fun i => i.reviewId == r.id)).length) := by
  obtain ⟨a1, a2, a3, a4, a5, ⟨new, i1, i2, i3⟩, ⟨newC, k1, k2⟩⟩ :=
    processFiles_spec env (createReview db u p b cm).1.id
      ((createReview db u p b cm).2.standards.filter (fun s => s.isActive))
      files (initLoopSt (createReview db u p b cm).2)
  have hcore : runCore env (createReview db u p b cm).2 (createReview db u p b cm).1 files msg =
      runCoreAfterLoop env (createReview db u p b cm).1 msg
        (files.foldl (processFile env (createReview db u p b cm).1.id
          ((createReview db u p b cm).2.standards.filter (fun s => s.isActive)))
          (initLoopSt (createReview db u p b cm).2)) := by
    unfold runCore
    rfl
  set st := files.foldl (processFile env (createReview db u p b cm).1.id
    ((createReview db u p b cm).2.standards.filter (fun s => s.isActive)))
    (initLoopSt (createReview db u p b cm).2) with hst
  have hIssInit : st.allIssues = new := by
    rw [i1]
    rfl
  have hIssDb : st.db.issues = db.issues ++ st.allIssues := by
    rw [hIssInit, i2]
    rfl
  have hRevs : st.db.reviews = db.reviews ++ [(createReview db u p b cm).1] := by
    rw [a1]
    rfl
  have hCalls : st.calls = newC := by
    rw [k1]
    rfl
  have hNxt : db.nextIssueId ≤ st.db.nextIssueId := a4
  have hProps : ∀ i ∈ st.allIssues, i.reviewId = (createReview db u p b cm).1.id ∧
      db.nextIssueId ≤ i.id ∧
      i.filePath ∈ (files.filter fileSurvives).map (fun f => f.«to») := by
    rw [hIssInit]
    exact i3
  by_cases hfa : st.filesAnalyzed = 0
  · rw [hcore, runCoreAfterLoop_zero env _ msg st hfa]
    refine ⟨?_, ⟨st.allIssues, ?_, ?_⟩, ?_⟩
    · intro c hc
      rw [hCalls] at hc
      exact k2 c hc
    · rw [setReviewFailed_issues]
      exact hIssDb
    · intro i hi
      exact (hProps i hi).2.2
    · intro r hcon
      exact absurd hcon (by simp)
  · have hold2 : ∀ x ∈ db.reviews, (x.id == (createReview db u p b cm).1.id) = false :=
      wf_review_ids db hwf
    have hrid0 : ∀ i ∈ db.issues, (i.reviewId == (createReview db u p b cm).1.id) = false :=
      fun i hi => (wf_issue_facts db hwf i hi).1
    have hdisj : ∀ i ∈ db.issues, ∀ a ∈ st.allIssues, i.id ≠ a.id := by
      intro i hi a ha
      have h1 := (wf_issue_facts db hwf i hi).2
      have h2 := (hProps a ha).2.1
      omega
    have hallrid : ∀ a ∈ st.allIssues, a.reviewId = (createReview db u p b cm).1.id :=
      fun a ha => (hProps a ha).1
    obtain ⟨db3, hrun, hfind, hsev, htot, hnew⟩ :=
      runCoreAfterLoop_ok env (createReview db u p b cm).1 msg st db.reviews db.issues
        hfa hRevs hold2 hIssDb hrid0 hdisj hallrid
    rw [hcore, hrun]
    refine ⟨?_, ?_, ?_⟩
    · intro c hc
      rw [hCalls] at hc
      exact k2 c hc
    · obtain ⟨new2, hnd, hnp⟩ := hnew
      refine ⟨new2, hnd, ?_⟩
      intro i hi
      obtain ⟨a, ha, hpa⟩ := hnp i hi
      rw [hpa]
      exact (hProps a ha).2.2
    · intro r hokr
      have hr : r = completionFn env st (effortStepOf env st.allIssues st.db).1
          (createReview db u p b cm).1 := by
        have := hokr
        simp at this
        exact this.symm
      subst hr
      refine ⟨?_, rfl, hfind, hsev, rfl, rfl, rfl, (htot).symm⟩
      show st.filesAnalyzed = (files.filter fileSurvives).length
      rw [a5]
      simp [initLoopSt]

/-- Equation lemma: `stagedBody` with an empty git status. -/
theorem stagedBody_err1_eq (env : AnalyzeEnv) (db : DB) (p : String) (u : Nat)
    (h1 : env.statusStaged.length = 0 ∧ env.statusModified.length = 0) :
    stagedBody env db p u =
      { result := .error "No staged or modified changes found. Please stage your changes first using 'git add'."
        db := db, calls := [] } := by
  unfold stagedBody
  rw [if_pos h1]

/-- Equation lemma: `stagedBody` with an empty diff text. -/
theorem stagedBody_err2_eq (env : AnalyzeEnv) (db : DB) (p : String) (u : Nat)
    (h1 : ¬(env.statusStaged.length = 0 ∧ env.statusModified.length = 0))
    (h2 : (diffTextOf true env = "" || jsTrim (diffTextOf true env) = "") = true) :
    stagedBody env db p u =
      { result := .error "No changes detected in the diff. Please make sure you have uncommitted changes."
        db := (createReview db u p env.branch none).2, calls := [] } := by
  have hD : (if env.statusStaged.length > 0 then env.diffCached else env.diffWorking) =
      diffTextOf true env := rfl
  unfold stagedBody
  rw [if_neg h1]
  simp only [hD]
  rw [if_pos (by simp at h2 ⊢; exact h2)]

/-- Equation lemma: `stagedBody` with an unparsable diff. -/
theorem stagedBody_err3_eq (env : AnalyzeEnv) (db : DB) (p : String) (u : Nat)
    (h1 : ¬(env.statusStaged.length = 0 ∧ env.statusModified.length = 0))
    (h2 : (diffTextOf true env = "" || jsTrim (diffTextOf true env) = "") = false)
    (h3 : (env.parseDiffFn (diffTextOf true env)).length = 0) :
    stagedBody env db p u =
      { result := .error "Unable to parse diff. Please check if there are valid code changes."
        db := (createReview db u p env.branch none).2, calls := [] } := by
  have hD : (if env.statusStaged.length > 0 then env.diffCached else env.diffWorking) =
      diffTextOf true env := rfl
  unfold stagedBody
  rw [if_neg h1]
  simp only [hD]
  rw [if_neg (by simp [h2]), if_pos h3]

/-- Equation lemma: `commitBody` when the commit does not exist. -/
theorem commitBody_err1_eq (env : AnalyzeEnv) (db : DB) (p ch : String) (u : Nat)
    (h1 : env.commitExists = false) :
    commitBody env db p ch u =
      { result := .error ("Commit " ++ ch ++ " not found in repository")
        db := db, calls := [] } := by
  unfold commitBody
  rw [h1]
  rfl

/-- Equation lemma: `commitBody` with an empty commit diff. -/
theorem commitBody_err2_eq (env : AnalyzeEnv) (db : DB) (p ch : String) (u : Nat)
    (h1 : env.commitExists = true)
    (h2 : (diffTextOf false env = "" || jsTrim (diffTextOf false env) = "") = true) :
    commitBody env db p ch u =
      { result := .error "No changes found in commit"
        db := (createReview db u p env.branch (some ch)).2, calls := [] } := by
  have hD : env.diffCommit = diffTextOf false env := rfl
  unfold commitBody
  simp only [h1, Bool.not_true]
  rw [if_neg (by simp)]
  simp only [hD]
  rw [if_pos (by simp at h2 ⊢; exact h2)]

/-- Equation lemma: `commitBody` with an unparsable commit diff. -/
theorem commitBody_err3_eq (env : AnalyzeEnv) (db : DB) (p ch : String) (u : Nat)
    (h1 : env.commitExists = true)
    (h2 : (diffTextOf false env = "" || jsTrim (diffTextOf false env) = "") = false)
    (h3 : (env.parseDiffFn (diffTextOf false env)).length = 0) :
    commitBody env db p ch u =
      { result := .error "Unable to parse commit diff"
        db := (createReview db u p env.branch (some ch)).2, calls := [] } := by
  have hD : env.diffCommit = diffTextOf false env := rfl
  unfold commitBody
  simp only [h1, Bool.not_true]
  rw [if_neg (by simp)]
  simp only [hD]
  rw [if_neg (by simp [h2]), if_pos h3]

/-- Full specification of either orchestrator run over a well-formed
database: AI calls and new issues belong to surviving files only, and a
COMPLETED run's review row carries counters realized by the persisted
issue rows. -/
theorem runAnalysis_spec (staged : Bool) (env : AnalyzeEnv) (db : DB)
    (p ch : String) (u : Nat) (hwf : db.wf = true) :
    (∀ c ∈ (runAnalysis staged env db p ch u).calls, c.filePath ∈
      ((env.parseDiffFn (diffTextOf staged env)).filter fileSurvives).map (fun f => f.«to»)) ∧
    (∃ new, (runAnalysis staged env db p ch u).db.issues = db.issues ++ new ∧
      ∀ i ∈ new, i.filePath ∈
        ((env.parseDiffFn (diffTextOf staged env)).filter fileSurvives).map (fun f => f.«to»)) ∧
    (∀ r, (runAnalysis staged env db p ch u).result = .ok r →
      r.filesAnalyzed = ((env.parseDiffFn (diffTextOf staged env)).filter fileSurvives).length ∧
      r.status = .COMPLETED ∧
      (runAnalysis staged env db p ch u).db.reviews.find? (fun x => x.id == r.id) = some r ∧
      r.criticalIssues = ((runAnalysis staged env db p ch u).db.issues.filter
        (fun i => i.reviewId == r.id && jsStrictEq i.severity (.str "CRITICAL"))).length ∧
      r.majorIssues = ((runAnalysis staged env db p ch u).db.issues.filter
        (fun i => i.reviewId == r.id && jsStrictEq i.severity (.str "MAJOR"))).length ∧
      r.minorIssues = ((runAnalysis staged env db p ch u).db.issues.filter
        (fun i => i.reviewId == r.id && jsStrictEq i.severity (.str "MINOR"))).length ∧
      r.issuesFound = ((runAnalysis staged env db p ch u).db.issues.filter
        (fun i => i.reviewId == r.id)).length) := by
  have hbody : ∀ (bodyOut : RunOut) (cm : Option String) (msg1 : String),
      (bodyOut = { result := .error msg1, db := db, calls := [] } ∨
       bodyOut = { result := .error msg1, db := (createReview db u p env.branch cm).2, calls := [] }) →
      (∀ c ∈ bodyOut.calls, c.filePath ∈
        ((env.parseDiffFn (diffTextOf staged env)).filter fileSurvives).map (fun f => f.«to»)) ∧
      (∃ new, bodyOut.db.issues = db.issues ++ new ∧
        ∀ i ∈ new, i.filePath ∈
          ((env.parseDiffFn (diffTextOf staged env)).filter fileSurvives).map (fun f => f.«to»)) ∧
      (∀ r, bodyOut.result = .ok r → False) := by
    intro bodyOut cm msg1 hcase
    rcases hcase with rfl | rfl
    · exact ⟨by simp, ⟨[], by simp, by simp⟩, by intro r hcon; exact absurd hcon (by simp)⟩
    · exact ⟨by simp, ⟨[], by simp [createReview], by simp⟩,
        by intro r hcon; exact absurd hcon (by simp)⟩
  have hcombine : ∀ (bodyOut : RunOut) (cm : Option String) (msg : String),
      bodyOut = runCore env (createReview db u p env.branch cm).2
        (createReview db u p env.branch cm).1
        (env.parseDiffFn (diffTextOf staged env)) msg →
      (∀ c ∈ bodyOut.calls, c.filePath ∈
        ((env.parseDiffFn (diffTextOf staged env)).filter fileSurvives).map (fun f => f.«to»)) ∧
      (∃ new, bodyOut.db.issues = db.issues ++ new ∧
        ∀ i ∈ new, i.filePath ∈
          ((env.parseDiffFn (diffTextOf staged env)).filter fileSurvives).map (fun f => f.«to»)) ∧
      (∀ r, bodyOut.result = .ok r →
        r.filesAnalyzed = ((env.parseDiffFn (diffTextOf staged env)).filter fileSurvives).length ∧
        r.status = .COMPLETED ∧
        bodyOut.db.reviews.find? (fun x => x.id == r.id) = some r ∧
        r.criticalIssues = (bodyOut.db.issues.filter
          (fun i => i.reviewId == r.id && jsStrictEq i.severity (.str "CRITICAL"))).length ∧
        r.majorIssues = (bodyOut.db.issues.filter
          (fun i => i.reviewId == r.id && jsStrictEq i.severity (.str "MAJOR"))).length ∧
        r.minorIssues = (bodyOut.db.issues.filter
          (fun i => i.reviewId == r.id && jsStrictEq i.severity (.str "MINOR"))).length ∧
        r.issuesFound = (bodyOut.db.issues.filter
          (fun i => i.reviewId == r.id)).length) := by
    intro bodyOut cm msg hcase
    subst hcase
    obtain ⟨hcall, hiss, hok⟩ :=
      runCore_spec env db u p env.branch cm msg (env.parseDiffFn (diffTextOf staged env)) hwf
    refine ⟨hcall, hiss, ?_⟩
    intro r hr
    obtain ⟨q1, q2, q4, qsev, qc, qm, qmi, qtot⟩ := hok r hr
    exact ⟨q1, q2, q4, by rw [qc, ← qsev "CRITICAL"], by rw [qm, ← qsev "MAJOR"],
      by rw [qmi, ← qsev "MINOR"], qtot⟩
  have hbodyOut : ∀ bodyOut : RunOut,
      (bodyOut = stagedBody env db p u ∧ staged = true) ∨
      (bodyOut = commitBody env db p ch u ∧ staged = false) →
      (∀ c ∈ bodyOut.calls, c.filePath ∈
        ((env.parseDiffFn (diffTextOf staged env)).filter fileSurvives).map (fun f => f.«to»)) ∧
      (∃ new, bodyOut.db.issues = db.issues ++ new ∧
        ∀ i ∈ new, i.filePath ∈
          ((env.parseDiffFn (diffTextOf staged env)).filter fileSurvives).map (fun f => f.«to»)) ∧
      (∀ r, bodyOut.result = .ok r →
        r.filesAnalyzed = ((env.parseDiffFn (diffTextOf staged env)).filter fileSurvives).length ∧
        r.status = .COMPLETED ∧
        bodyOut.db.reviews.find? (fun x => x.id == r.id) = some r ∧
        r.criticalIssues = (bodyOut.db.issues.filter
          (fun i => i.reviewId == r.id && jsStrictEq i.severity (.str "CRITICAL"))).length ∧
        r.majorIssues = (bodyOut.db.issues.filter
          (fun i => i.reviewId == r.id && jsStrictEq i.severity (.str "MAJOR"))).length ∧
        r.minorIssues = (bodyOut.db.issues.filter
          (fun i => i.reviewId == r.id && jsStrictEq i.severity (.str "MINOR"))).length ∧
        r.issuesFound = (bodyOut.db.issues.filter
          (fun i => i.reviewId == r.id)).length) := by
    intro bodyOut hcase
    rcases hcase with ⟨rfl, rfl⟩ | ⟨rfl, rfl⟩
    · by_cases h1 : env.statusStaged.length = 0 ∧ env.statusModified.length = 0
      · obtain ⟨w1, w2, w3⟩ := hbody _ none _ (Or.inl (stagedBody_err1_eq env db p u h1))
        exact ⟨w1, w2, fun r hr => absurd (w3 r hr) id⟩
      · rcases hc2 : (diffTextOf true env = "" || jsTrim (diffTextOf true env) = "") with _ | _
        · by_cases h3 : (env.parseDiffFn (diffTextOf true env)).length = 0
          · obtain ⟨w1, w2, w3⟩ := hbody _ none _
              (Or.inr (stagedBody_err3_eq env db p u h1 hc2 h3))
            exact ⟨w1, w2, fun r hr => absurd (w3 r hr) id⟩
          · exact hcombine _ none _ (stagedBody_core_eq env db p u h1 hc2 h3)
        · obtain ⟨w1, w2, w3⟩ := hbody _ none _
            (Or.inr (stagedBody_err2_eq env db p u h1 hc2))
          exact ⟨w1, w2, fun r hr => absurd (w3 r hr) id⟩
    · rcases hc1 : env.commitExists with _ | _
      · obtain ⟨w1, w2, w3⟩ := hbody _ (some ch) _
          (Or.inl (commitBody_err1_eq env db p ch u hc1))
        exact ⟨w1, w2, fun r hr => absurd (w3 r hr) id⟩
      · rcases hc2 : (diffTextOf false env = "" || jsTrim (diffTextOf false env) = "") with _ | _
        · by_cases h3 : (env.parseDiffFn (diffTextOf false env)).length = 0
          · obtain ⟨w1, w2, w3⟩ := hbody _ (some ch) _
              (Or.inr (commitBody_err3_eq env db p ch u hc1 hc2 h3))
            exact ⟨w1, w2, fun r hr => absurd (w3 r hr) id⟩
          · exact hcombine _ (some ch) _ (commitBody_core_eq env db p ch u hc1 hc2 h3)
        · obtain ⟨w1, w2, w3⟩ := hbody _ (some ch) _
            (Or.inr (commitBody_err2_eq env db p ch u hc1 hc2))
          exact ⟨w1, w2, fun r hr => absurd (w3 r hr) id⟩
  cases staged
  · exact hbodyOut (commitBody env db p ch u) (Or.inr ⟨rfl, rfl⟩)
  · obtain ⟨w1, w2, w3⟩ := hbodyOut (stagedBody env db p u) (Or.inl ⟨rfl, rfl⟩)
    rcases hres : (stagedBody env db p u).result with e | r2
    · have hout : runAnalysis true env db p ch u =
          { result := .error e
            db := markRecentFailed (stagedBody env db p u).db u p
            calls := (stagedBody env db p u).calls } := by
        show analyzeStagedChanges env db p u = _
        exact analyzeStagedChanges_error_eq env db p u e hres
      rw [hout]
      refine ⟨w1, ?_, ?_⟩
      · obtain ⟨new, hn1, hn2⟩ := w2
        exact ⟨new, by rw [markRecentFailed_issues]; exact hn1, hn2⟩
      · intro r hcon
        exact absurd hcon (by simp)
    · have hout : runAnalysis true env db p ch u = stagedBody env db p u := by
        show analyzeStagedChanges env db p u = _
        exact analyzeStagedChanges_ok_eq env db p u r2 hres
      rw [hout]
      exact ⟨w1, w2, w3⟩

/-- Witness for C8: a staged run whose only file is `notes.txt`. -/
theorem zero_survivors_failed_witness :
    (runAnalysis true envSkipW dbEmptyW "repo" "" 1).result =
      .error "No supported files found to analyze. Make sure you have code files with supported extensions (.js, .jsx, .ts, .tsx, .py, .java, etc.)" ∧
    ∃ r, (runAnalysis true envSkipW dbEmptyW "repo" "" 1).db.reviews.find?
        (fun x => x.id == dbEmptyW.nextReviewId) = some r ∧ r.status = .FAILED :=
  zero_survivors_failed true envSkipW dbEmptyW "repo" "" 1 (by decide)
    (fun _ => by decide) (fun hcon => Bool.noConfusion hcon) (by decide)
    (by decide) (by decide)

/-- C4: with zero staged and zero modified files, `analyzeStagedChanges`
fails with the "no changes" error; no review row is created (the set of
review ids is unchanged, no issue or AI call is made), and any non-terminal
review row present afterwards was already present, non-terminal, before the
run. -/
theorem staged_noChanges (env : AnalyzeEnv) (db : DB) (p : String) (u : Nat)
    (h1 : env.statusStaged = []) (h2 : env.statusModified = []) :
    (analyzeStagedChanges env db p u).result =
      .error "No staged or modified changes found. Please stage your changes first using 'git add'." ∧
    (analyzeStagedChanges env db p u).db.reviews.map Review.id =
      db.reviews.map Review.id ∧
    (analyzeStagedChanges env db p u).db.issues = db.issues ∧
    (analyzeStagedChanges env db p u).calls = [] ∧
    (∀ r ∈ (analyzeStagedChanges env db p u).db.reviews,
      r.status = .IN_PROGRESS ∨ r.status = .PENDING →
      ∃ r0 ∈ db.reviews, r0.id = r.id ∧ r0.status = r.status) := by
  have hbody : stagedBody env db p u =
      { result := .error "No staged or modified changes found. Please stage your changes first using 'git add'."
        db := db, calls := [] } := by
    unfold stagedBody
    rw [h1, h2]
    simp
  have hout : analyzeStagedChanges env db p u =
      { result := .error "No staged or modified changes found. Please stage your changes first using 'git add'."
        db := markRecentFailed db u p, calls := [] } := by
    unfold analyzeStagedChanges
    rw [hbody]
  rw [hout]
  exact ⟨rfl, markRecentFailed_map_id db u p, markRecentFailed_issues db u p, rfl,
    fun r hr hs => markRecentFailed_nonterminal db u p r hr hs⟩

/-- Witness for C4: a repository with empty git status against a one-review
database. -/
theorem staged_noChanges_witness :
    (analyzeStagedChanges envEmptyW dbOneW "repo" 1).result =
      .error "No staged or modified changes found. Please stage your changes first using 'git add'." ∧
      (analyzeStagedChanges envEmptyW dbOneW "repo" 1).db.reviews.map Review.id =
        dbOneW.reviews.map Review.id ∧
      (analyzeStagedChanges envEmptyW dbOneW "repo" 1).db.issues = dbOneW.issues :=
  ⟨(staged_noChanges envEmptyW dbOneW "repo" 1 rfl rfl).1,
   (staged_noChanges envEmptyW dbOneW "repo" 1 rfl rfl).2.1,
   (staged_noChanges envEmptyW dbOneW "repo" 1 rfl rfl).2.2.1⟩

/-- Witness for C9: a one-row table holding a built-in standard. -/
theorem builtinStandard_immutable_witness :
    (putStandard [stdW] "s1" patchW).1.status = 403 ∧
      (putStandard [stdW] "s1" patchW).2 = [stdW] ∧
      (deleteStandard [stdW] "s1").1.status = 403 ∧
      (deleteStandard [stdW] "s1").2 = [stdW] :=
  builtinStandard_immutable [stdW] "s1" patchW stdW rfl rfl

/-- C1: whenever either orchestrator entry point (`analyzeStagedChanges`
or `analyzeCommit`) returns a COMPLETED review, its `criticalIssues`,
`majorIssues` and `minorIssues` each equal the number of issues persisted
for that review whose severity strictly equals "CRITICAL", "MAJOR" and
"MINOR" respectively, while `issuesFound` counts every persisted issue of
the review — so an INFO-severity issue enters `issuesFound` (its row
satisfies the `issuesFound` filter) but none of the three counters (its
severity fails all three severity filters). -/
theorem completed_review_counters (staged : Bool) (env : AnalyzeEnv) (db : DB)
    (p ch : String) (u : Nat) (r : Review) (hwf : db.wf = true)
    (hok : (runAnalysis staged env db p ch u).result = .ok r) :
    r.status = .COMPLETED ∧
    r.criticalIssues = ((runAnalysis staged env db p ch u).db.issues.filter
      (fun j => j.reviewId == r.id && jsStrictEq j.severity (.str "CRITICAL"))).length ∧
    r.majorIssues = ((runAnalysis staged env db p ch u).db.issues.filter
      (fun j => j.reviewId == r.id && jsStrictEq j.severity (.str "MAJOR"))).length ∧
    r.minorIssues = ((runAnalysis staged env db p ch u).db.issues.filter
      (fun j => j.reviewId == r.id && jsStrictEq j.severity (.str "MINOR"))).length ∧
    r.issuesFound = ((runAnalysis staged env db p ch u).db.issues.filter
      (fun j => j.reviewId == r.id)).length ∧
    (∀ i ∈ (runAnalysis staged env db p ch u).db.issues,
      i.reviewId = r.id → jsStrictEq i.severity (.str "INFO") = true →
      i ∈ (runAnalysis staged env db p ch u).db.issues.filter
        (fun j => j.reviewId == r.id) ∧
      jsStrictEq i.severity (.str "CRITICAL") = false ∧
      jsStrictEq i.severity (.str "MAJOR") = false ∧
      jsStrictEq i.severity (.str "MINOR") = false) := by
  obtain ⟨w1, w2, w3⟩ := runAnalysis_spec staged env db p ch u hwf
  obtain ⟨q1, q2, q4, qc, qm, qmi, qtot⟩ := w3 r hok
  refine ⟨q2, qc, qm, qmi, qtot, ?_⟩
  intro i hmem hrid hinfo
  have hsev : i.severity = .str "INFO" := by
    cases hs : i.severity <;> rw [hs] at hinfo <;> simp [jsStrictEq] at hinfo <;>
      try rw [hinfo]
  refine ⟨List.mem_filter.mpr ⟨hmem, by simp [hrid]⟩, ?_, ?_, ?_⟩ <;>
    rw [hsev] <;> decide

/-- Witness for C1: a staged run over `a.js` whose analysis returns one
CRITICAL, one MINOR and one INFO issue completes with counters 1/0/1 while
`issuesFound` is 3. -/
theorem completed_review_counters_witness :
    dbEmptyW.wf = true ∧
    (runAnalysis true envRunW dbEmptyW "repo" "" 1).result = .ok reviewRunW ∧
    reviewRunW.status = .COMPLETED ∧
    reviewRunW.criticalIssues = ((runAnalysis true envRunW dbEmptyW "repo" "" 1).db.issues.filter
      (fun j => j.reviewId == reviewRunW.id && jsStrictEq j.severity (.str "CRITICAL"))).length ∧
    reviewRunW.criticalIssues = 1 ∧
    reviewRunW.majorIssues = 0 ∧
    reviewRunW.minorIssues = 1 ∧
    reviewRunW.issuesFound = 3 := by
  have h := completed_review_counters true envRunW dbEmptyW "repo" "" 1 reviewRunW rfl rfl
  exact ⟨rfl, rfl, h.1, h.2.1, rfl, rfl, rfl, rfl⟩

/-- C7: a parsed-diff entry that is deleted or whose extension is absent
from `supportedExtensions` is skipped (provided every entry sharing its
path is likewise skipped, as in any real diff where paths are unique): it
fails the survival filter, no AI call carries its path, no newly persisted
issue carries its path, it is excluded from the surviving entries, and a
COMPLETED run's `filesAnalyzed` equals the number of surviving entries —
which do not include it. -/
theorem skipped_file_excluded (staged : Bool) (env : AnalyzeEnv) (db : DB)
    (p ch : String) (u : Nat) (f : DiffFile) (hwf : db.wf = true)
    (hf : f ∈ env.parseDiffFn (diffTextOf staged env))
    (hskip : f.deleted = true ∨ supportedExtensions (extname f.«to») = none)
    (hpath : ∀ g ∈ env.parseDiffFn (diffTextOf staged env), g.«to» = f.«to» →
      g.deleted = true ∨ supportedExtensions (extname g.«to») = none) :
    fileSurvives f = false ∧
    (∀ c ∈ (runAnalysis staged env db p ch u).calls, c.filePath ≠ f.«to») ∧
    (∃ new, (runAnalysis staged env db p ch u).db.issues = db.issues ++ new ∧
      ∀ i ∈ new, i.filePath ≠ f.«to») ∧
    f ∉ (env.parseDiffFn (diffTextOf staged env)).filter fileSurvives ∧
    (∀ r, (runAnalysis staged env db p ch u).result = .ok r →
      r.filesAnalyzed =
        ((env.parseDiffFn (diffTextOf staged env)).filter fileSurvives).length) := by
  have hnsurv : fileSurvives f = false := by
    rcases hskip with h | h <;> simp [fileSurvives, h]
  have hkey : f.«to» ∉ ((env.parseDiffFn (diffTextOf staged env)).filter
      fileSurvives).map (fun g => g.«to») := by
    intro hmem
    rcases List.mem_map.mp hmem with ⟨g, hg, hge⟩
    have hgs := (List.mem_filter.mp hg).2
    rcases hpath g (List.mem_filter.mp hg).1 hge with h | h <;>
      simp [fileSurvives, h] at hgs
  obtain ⟨w1, w2, w3⟩ := runAnalysis_spec staged env db p ch u hwf
  refine ⟨hnsurv, ?_, ?_, ?_, ?_⟩
  · intro c hc hceq
    exact hkey (hceq ▸ w1 c hc)
  · obtain ⟨new, hn1, hn2⟩ := w2
    exact ⟨new, hn1, fun i hi hieq => hkey (hieq ▸ hn2 i hi)⟩
  · intro hmem
    exact absurd (List.mem_filter.mp hmem).2 (by simp [hnsurv])
  · intro r hr
    exact (w3 r hr).1

/-- Witness for C7: in the same staged run, the unsupported `notes.txt`
entry is skipped while `a.js` is analyzed, so `filesAnalyzed` is 1 and no
call or issue mentions `notes.txt`. -/
theorem skipped_file_excluded_witness :
    dbEmptyW.wf = true ∧
    supportedExtensions (extname fileNoteW.«to») = none ∧
    fileSurvives fileNoteW = false ∧
    (∀ c ∈ (runAnalysis true envRunW dbEmptyW "repo" "" 1).calls,
      c.filePath ≠ fileNoteW.«to») ∧
    fileNoteW ∉ (envRunW.parseDiffFn (diffTextOf true envRunW)).filter fileSurvives ∧
    (∀ r, (runAnalysis true envRunW dbEmptyW "repo" "" 1).result = .ok r →
      r.filesAnalyzed = 1) := by
  have hf : fileNoteW ∈ envRunW.parseDiffFn (diffTextOf true envRunW) := by
    show fileNoteW ∈ [fileAW, fileNoteW]
    exact List.mem_cons_of_mem _ (List.mem_cons_self _ _)
  have hpath : ∀ g ∈ envRunW.parseDiffFn (diffTextOf true envRunW),
      g.«to» = fileNoteW.«to» →
      g.deleted = true ∨ supportedExtensions (extname g.«to») = none := by
    intro g hg he
    replace hg : g ∈ [fileAW, fileNoteW] := hg
    rcases List.mem_cons.mp hg with rfl | hg2
    · exact absurd he (by decide)
    · rcases List.mem_cons.mp hg2 with rfl | hg3
      · exact Or.inr rfl
      · exact absurd hg3 (List.not_mem_nil g)
  obtain ⟨a1, a2, a3, a4, a5⟩ := skipped_file_excluded true envRunW dbEmptyW
    "repo" "" 1 fileNoteW rfl hf (Or.inr rfl) hpath
  refine ⟨rfl, rfl, a1, a2, a4, ?_⟩
  intro r hr
  rw [a5 r hr]
  rfl

end HaufeReview
